import Mathlib

/-!
Verification of the static code-structure and data-flow extraction engine of the
Advanced-AI-code-Scanner repository against its natural-language specification.

The development shallowly embeds the relevant Python code:

* `Test.py` (class `CodeAnalyzer`): the regex parameter splitters used by
  `extract_functions` (Python syntax-error fallback, JS/TS branch, Java branch),
  the pattern catalogs `DB_PATTERNS` / `API_PATTERNS` with the scanners
  `scan_for_database_connections` / `scan_for_api_patterns`, the graph assembly
  `analyze_data_flow` (networkx `DiGraph` modelled as ordered node/edge
  association lists with merge-on-reinsert semantics), and the Python-AST
  branch of `extract_functions`.
* `code_analyzer/analyzers/python_analyzer.py` (class `PythonAnalyzer`): line
  counting, complexity, cognitive complexity, docstring coverage,
  maintainability and technical-debt computation, issue detection, and the
  error sentinel for unparseable files.

Embedding conventions:

* Raw text is modelled as `List Char` (files as `List String` of lines); the
  Python string helpers `strip` / `split` are reimplemented character by
  character with Python semantics.
* Python AST trees are modelled by the inductive `PyNode`, keeping exactly the
  node distinctions the analyzed functions test with `isinstance`, and `ast.walk`
  is modelled by the breadth-first `walk` below, matching the deque-based
  implementation in CPython.
* Regular-expression search over raw text (`re.search(pattern, text,
  re.IGNORECASE)`) is abstracted as a matcher parameter
  `m : String → String → Bool` (pattern, text); theorems hold for every
  matcher, in particular the case-insensitive one.  The only regex whose exact
  semantics a claim depends on, the Java parameter-name pattern, is embedded
  concretely (`java_param_name`).
* Python float arithmetic on the small ratios involved is modelled exactly over
  `ℚ`; the literal `0.1` denotes the rational 1/10.
-/

/-- Python str.strip on ASCII text: drop leading and trailing whitespace. -/
def pyStrip (l : List Char) : List Char :=
  ((l.dropWhile Char.isWhitespace).reverse.dropWhile Char.isWhitespace).reverse

/-- Splitting of a list at every element satisfying `p`, keeping empty segments;
with `p = (· == sep)` this is Python str.split(sep) for a one-character
separator (it returns n+1 segments for n separators, never drops any). -/
def splitSeg (p : α → Bool) (l : List α) : List (List α) :=
  l.foldr
    (fun a acc =>
      match acc with
      | s :: ss => if p a then [] :: s :: ss else (a :: s) :: ss
      | [] => [[a]])
    [[]]

/-- Python str.split for a single-character separator. -/
def pySplitChar (c : Char) (l : List Char) : List (List Char) :=
  splitSeg (fun a => a == c) l

/-- Models the shared list comprehension
`[p.strip().split('=')[0].strip() for p in params_str.split(',') if p.strip()]`
of Test.py line 1380 (Python syntax-error fallback) and line 1403
(JS/TS regex branch): split the captured parameter text on every comma, drop
whitespace-only fragments, and keep the stripped text before the first `=`. -/
def split_params_simple (s : List Char) : List (List Char) :=
  (pySplitChar ',' s).filterMap fun p =>
    let q := pyStrip p
    if q.isEmpty then none
    else some (pyStrip (q.takeWhile (fun c => c ≠ '=')))

/-- Models the regex capture `\(([^)]*)\)` used by the function-declaration
patterns of Test.py (lines 1378, 1391-1396): the text between the first opening
parenthesis and the following closing parenthesis, for declarations that
contain no closing parenthesis inside the parameter list. -/
def captureParenGroup (s : List Char) : List Char :=
  ((s.dropWhile (fun c => c ≠ '(')).drop 1).takeWhile (fun c => c ≠ ')')

/-- Parameter names produced by the JS/TS regex branch of
`CodeAnalyzer.extract_functions` (Test.py line 1403) for one matched
declaration. -/
def js_function_params (decl : List Char) : List String :=
  (split_params_simple (captureParenGroup decl)).map (fun l => String.mk l)

/-- Parameter names produced by the Python syntax-error regex fallback of
`CodeAnalyzer.extract_functions` (Test.py line 1380) for one matched
declaration. -/
def python_fallback_params (decl : List Char) : List String :=
  (split_params_simple (captureParenGroup decl)).map (fun l => String.mk l)

/-- Models the comma splitter of the Java branch of
`CodeAnalyzer.extract_functions` (Test.py lines 1451-1467): split on commas at
angle-bracket depth zero, counting only `<` and `>`; each finished part is
stripped, and the trailing part is appended only when nonempty before
stripping. -/
def javaSplitAux : List Char → Int → List Char → List (List Char)
  | [], _, cur => if cur.isEmpty then [] else [pyStrip cur]
  | ch :: rest, depth, cur =>
    if ch = ',' ∧ depth = 0 then
      pyStrip cur :: javaSplitAux rest depth []
    else
      let cur' := cur ++ [ch]
      let depth' : Int := if ch = '<' then depth + 1 else if ch = '>' then depth - 1 else depth
      javaSplitAux rest depth' cur'

/-- Top-level comma parts of a Java parameter list, as in Test.py lines
1451-1467. -/
def java_param_parts (s : List Char) : List (List Char) :=
  javaSplitAux s 0 []

/-- Word characters of the regex class `\w` for ASCII text. -/
def isWordChar (c : Char) : Bool :=
  c.isAlphanum || c = '_'

/-- Models `re.search(r'(\w+)(?:\s*=.*)?$', part)` of Test.py line 1471 and
returns group 1: the leftmost maximal word run that is followed (after optional
whitespace) by `=` or by the end of the part.  Starting a match inside a word
run gives the same remainder as the full run, and shrinking the greedy `\w+`
leaves a word character where `$` or `\s*=` must match, so only maximal runs
can match; the embedding therefore scans maximal word runs left to right. -/
def javaNameAux : Nat → List Char → Option (List Char)
  | _, [] => none
  | 0, _ :: _ => none
  | fuel + 1, c :: rest =>
    if isWordChar c then
      let run := c :: rest.takeWhile isWordChar
      let rem := rest.dropWhile isWordChar
      if rem.isEmpty || (rem.dropWhile Char.isWhitespace).head? = some '=' then some run
      else javaNameAux fuel rem
    else javaNameAux fuel rest

/-- Entry point of the name search; the fuel `l.length` strictly dominates the
number of scanning steps (every step drops at least one character), so the
zero-fuel branch of `javaNameAux` is never reached. -/
def java_param_name (l : List Char) : Option (List Char) :=
  javaNameAux l.length l

/-- Parameter names produced by the Java branch of
`CodeAnalyzer.extract_functions` (Test.py lines 1447-1473): the stripped
parameter text is split on depth-zero commas and each part contributes the
group-1 capture of the name regex when it matches. -/
def java_params (s : List Char) : List String :=
  let params_str := pyStrip s
  if params_str.isEmpty then []
  else ((java_param_parts params_str).filterMap java_param_name).map (fun l => String.mk l)

/-- Database connection pattern catalog `DB_PATTERNS` of Test.py lines 981-1033,
transcribed entry for entry in declaration order; quotes, braces and backticks
inside the regex strings are written with character escapes. -/
def DB_PATTERNS : List (String × List String) :=
  [ ("MySQL",
      ["mysql\\.connector", "pymysql", "MySQLdb", "jdbc:mysql",
       "createConnection\\s*\\(\\s*[\x22\\\x27]mysql", "mysql\\s*://", "new\\s+MySQL"]),
    ("PostgreSQL",
      ["psycopg2", "pg8000", "postgresql://", "postgres://", "jdbc:postgresql",
       "new\\s+PostgreSQL", "Pool\\s*\\(\\s*[\x22\\\x27]postgres"]),
    ("SQLite",
      ["sqlite3", "\\.db", "\\.sqlite", "jdbc:sqlite",
       "createConnection\\s*\\(\\s*[\x22\\\x27]sqlite"]),
    ("MongoDB",
      ["pymongo", "mongodb://", "MongoClient", "mongoose", "mongodb\\+srv",
       "new\\s+Mongo", "connect\\s*\\(\\s*[\x22\\\x27]mongodb"]),
    ("Oracle",
      ["cx_Oracle", "oracle", "jdbc:oracle", "oracledb", "OracleConnection"]),
    ("SQL Server",
      ["pyodbc", "sqlserver", "mssql", "jdbc:sqlserver", "new\\s+SqlConnection",
       "data source=.*server", "Server=.*Database", "Data Source=.*Initial Catalog"]),
    ("Redis",
      ["redis", "Redis\\(", "createClient\\s*\\(\\s*[\x22\\\x27]redis", "redis://"]),
    ("Firestore/Firebase",
      ["firebase", "firestore", "initializeApp", "FirebaseFirestore",
       "collection\\s*\\(", "getFirestore"]),
    ("DynamoDB",
      ["dynamodb", "DynamoDBClient", "DocumentClient", "new\\s+AWS\\.DynamoDB"]),
    ("Cassandra",
      ["cassandra", "datastax", "Cluster\\s*\\(", "cqlengine",
       "cassandra-driver", "CassandraClient"]),
    ("Elasticsearch",
      ["elasticsearch", "elastic", "Elasticsearch\\s*\\(",
       "createClient\\s*\\(\\s*\\\x7b\\s*node"]),
    ("Neo4j",
      ["neo4j", "GraphDatabase", "bolt://", "neo4j://", "Driver\\s*\\("]),
    ("Snowflake",
      ["snowflake", "SnowflakeConnection", "snowflake-connector", "snowflake://"]),
    ("BigQuery",
      ["bigquery", "BigQuery", "google\\.cloud\\.bigquery", "bigquery\\.Client"]),
    ("Redshift",
      ["redshift", "redshift_connector", "jdbc:redshift", "redshift://"]) ]

/-- External API and data-movement pattern catalog `API_PATTERNS` of Test.py
lines 1036-1074, transcribed entry for entry in declaration order. -/
def API_PATTERNS : List (String × List String) :=
  [ ("REST API",
      ["\\.get\\(\\s*[\x22\\\x27]https?://", "\\.post\\(\\s*[\x22\\\x27]https?://",
       "fetch\\(\\s*[\x22\\\x27]https?://", "axios", "requests\\.", "http\\.",
       "HttpClient", "new\\s+Http", "new\\s+XMLHttpRequest", "RestTemplate",
       "WebClient", "OkHttp", "Retrofit"]),
    ("GraphQL",
      ["graphql", "ApolloClient", "gql\\s*\x60", "useQuery", "useMutation",
       "GraphQLClient", "execute\\s*\\(\\s*[\\w\\s]*\\\x7b", "execute\\s*\\(\\s*gql"]),
    ("gRPC",
      ["grpc", "protobuf", "ServiceClient", "createClient\\s*\\(\\s*[\\\x27\\\x22]grpc",
       "\\.proto", "ServerBuilder"]),
    ("WebSocket",
      ["websocket", "new\\s+WebSocket", "\\.on\\(\\s*[\x22\\\x27]message",
       "\\.on\\(\\s*[\x22\\\x27]open", "socket\\.io", "socketio", "ws://", "wss://"]),
    ("Message Queue",
      ["rabbitmq", "kafka", "activemq", "pubsub", "SQS", "kinesis",
       "EventHub", "ServiceBus", "JMS", "MQTT", "Producer", "Consumer",
       "publish\\s*\\(", "subscribe\\s*\\(", "amqp", "message_broker"]),
    ("ETL Process",
      ["airflow", "luigi", "nifi", "talend", "informatica", "pentaho",
       "spark", "databricks", "dbt", "extract_transform_load",
       "etl", "data\\s+pipeline", "pipeline"]),
    ("File System",
      ["open\\s*\\(\\s*[\\\x27\\\x22][^\\\x27\\\x22]+\\.", "readFile", "writeFile",
       "readdir", "fs\\.", "filesystem", "storage\\.", "blob", "S3",
       "uploadFile", "downloadFile", "copyFile"]),
    ("Cloud Storage",
      ["S3", "Blob", "GCS", "Azure\\s*Storage", "StorageClient", "CloudStorage",
       "uploadToS3", "downloadFromS3", "bucket", "container\\.", "putObject",
       "getObject"]) ]

/-- Catalog scan loop shared by `scan_for_database_connections` (Test.py lines
1781-1792) and `scan_for_api_patterns` (lines 1794-1805): for each catalog
entry in declaration order, try its patterns in order and, at the first match,
append the kind name unless it is already present, then move to the next entry
(the `break`).  The matcher `m pat text` abstracts
`re.search(pat, text, re.IGNORECASE) is not None`. -/
def scanAux (m : String → String → Bool) (content : String) :
    List (String × List String) → List String → List String
  | [], acc => acc
  | (kind, pats) :: rest, acc =>
    if pats.any (fun p => m p content) then
      scanAux m content rest (if kind ∈ acc then acc else acc ++ [kind])
    else
      scanAux m content rest acc

/-- Models `CodeAnalyzer.scan_for_database_connections` (Test.py 1781-1792). -/
def scan_for_database_connections (m : String → String → Bool) (content : String) :
    List String :=
  scanAux m content DB_PATTERNS []

/-- Models `CodeAnalyzer.scan_for_api_patterns` (Test.py 1794-1805). -/
def scan_for_api_patterns (m : String → String → Bool) (content : String) :
    List String :=
  scanAux m content API_PATTERNS []

/-- Attribute dictionary of a graph node, restricted to the keys
`analyze_data_flow` ever sets (`type`, `has_db`, `db_types`); a `none` field is
an absent key. -/
structure NodeAttrs where
  ntype : Option String
  has_db : Option Bool
  db_types : Option (List String)
deriving Repr, DecidableEq

/-- Attribute dictionary with no keys set. -/
def NodeAttrs.emptyAttrs : NodeAttrs :=
  ⟨none, none, none⟩

/-- Dictionary update `old.update(new)`: keys present in `new` overwrite, the
others survive. -/
def NodeAttrs.updateWith (old new : NodeAttrs) : NodeAttrs :=
  ⟨new.ntype.elim old.ntype some, new.has_db.elim old.has_db some,
   new.db_types.elim old.db_types some⟩

/-- Model of `networkx.DiGraph` as used by `analyze_data_flow`: insertion-ordered
association lists of nodes (id, attributes) and edges (source, target, `type`
attribute).  Node ids are unique and edge (source, target) pairs are unique by
construction, matching the dict-of-dicts representation of networkx. -/
structure DiGraph where
  nodes : List (String × NodeAttrs)
  edges : List (String × String × String)
deriving Repr, DecidableEq

/-- Graph with no nodes and no edges (`nx.DiGraph()`). -/
def DiGraph.emptyGraph : DiGraph :=
  ⟨[], []⟩

/-- Membership test for a node id. -/
def DiGraph.hasNode (g : DiGraph) (id : String) : Bool :=
  g.nodes.any (fun p => p.1 = id)

/-- Models `G.add_node(id, **attrs)`: when the id exists the supplied attributes
update the stored dictionary (a merge, never a duplicate entry), otherwise the
node is appended with exactly the supplied attributes. -/
def DiGraph.add_node (g : DiGraph) (id : String) (a : NodeAttrs) : DiGraph :=
  if g.hasNode id then
    { g with nodes := g.nodes.map (fun p => if p.1 = id then (p.1, p.2.updateWith a) else p) }
  else
    { g with nodes := g.nodes ++ [(id, NodeAttrs.emptyAttrs.updateWith a)] }

/-- Helper of `add_edge`: a missing endpoint is inserted with an empty attribute
dictionary, an existing endpoint is left untouched. -/
def DiGraph.ensureNode (g : DiGraph) (id : String) : DiGraph :=
  if g.hasNode id then g else { g with nodes := g.nodes ++ [(id, NodeAttrs.emptyAttrs)] }

/-- Membership test for an edge key (source, target). -/
def DiGraph.hasEdge (g : DiGraph) (u v : String) : Bool :=
  g.edges.any (fun e => e.1 = u ∧ e.2.1 = v)

/-- Models `G.add_edge(u, v, type=t)`: both endpoints are inserted if missing;
an existing (u, v) edge has its `type` attribute overwritten, a new edge is
appended. -/
def DiGraph.add_edge (g : DiGraph) (u v t : String) : DiGraph :=
  let g1 := (g.ensureNode u).ensureNode v
  if g1.hasEdge u v then
    { g1 with edges := g1.edges.map (fun e => if e.1 = u ∧ e.2.1 = v then (u, v, t) else e) }
  else
    { g1 with edges := g1.edges ++ [(u, v, t)] }

/-- Per-file inputs of `analyze_data_flow`, the fields of the `files_data`
records it reads (Test.py lines 2223-2237 build them): `has_db_connection` is
`bool(db_conns)`, `db_types` is the database scan result and `api_patterns`
the API scan result for the file. -/
structure FileData where
  path : String
  has_db_connection : Bool
  db_types : List String
  api_patterns : List String
deriving Repr, DecidableEq

/-- Record of the `files_data` list built by `analyze_codebase` for one
successfully read file (Test.py lines 2223-2237), restricted to the fields
`analyze_data_flow` consumes; the scans come from `analyze_file`
(Test.py lines 2065-2068). -/
def mkFileData (m : String → String → Bool) (path content : String) : FileData :=
  { path := path
    has_db_connection := !(scan_for_database_connections m content).isEmpty
    db_types := scan_for_database_connections m content
    api_patterns := scan_for_api_patterns m content }

/-- First-occurrence deduplication, modelling the iteration over the Python set
`set(db for connections in db_connections.values() for db in connections)`
(Test.py line 1886); set iteration order is unspecified in Python, and no
theorem below depends on the order of this list, only on its members. -/
def pyDedup : List String → List String
  | [] => []
  | x :: xs => if x ∈ xs then pyDedup xs else x :: pyDedup xs

/-- Node entry of the visualizable graph data (Test.py lines 1930-1947). -/
structure OutNode where
  id : String
  label : String
  ntype : String
  has_db : Bool
  db_types : List String
deriving Repr, DecidableEq

/-- Edge entry of the visualizable graph data (Test.py lines 1949-1955). -/
structure OutEdge where
  source : String
  target : String
  etype : String
deriving Repr, DecidableEq

/-- ETL candidate record (Test.py lines 1961-1965). -/
structure EtlCandidate where
  file : String
  db_types : List String
  api_patterns : List String
deriving Repr, DecidableEq

/-- Result of `analyze_data_flow`: the plain node/edge lists plus the ETL
candidates. -/
structure DataFlowResult where
  graph_nodes : List OutNode
  graph_edges : List OutEdge
  etl_candidates : List EtlCandidate
deriving Repr, DecidableEq

/-- Step 1 of `analyze_data_flow` (Test.py lines 1879-1883): one `add_node` per
file, with `has_db`/`db_types` attributes only when the file has a database
connection. -/
def addFileNodes (g : DiGraph) (files : List FileData) : DiGraph :=
  files.foldl
    (fun g f =>
      if f.has_db_connection then
        g.add_node f.path ⟨some "file", some true, some f.db_types⟩
      else
        g.add_node f.path ⟨some "file", none, none⟩)
    g

/-- Step 2 of `analyze_data_flow` (Test.py lines 1886-1887): one database node
per distinct detected kind. -/
def addDbNodes (g : DiGraph) (kinds : List String) : DiGraph :=
  kinds.foldl (fun g k => g.add_node ("DB:" ++ k) ⟨some "database", none, none⟩) g

/-- Step 3 of `analyze_data_flow` (Test.py lines 1890-1893): for every entry of
the `db_connections` dict and every kind in its list, a `uses` edge from the
file to the database node and a `used_by` edge back. -/
def addDbEdges (g : DiGraph) (conns : List (String × List String)) : DiGraph :=
  conns.foldl
    (fun g pc =>
      pc.2.foldl
        (fun g k => (g.add_edge pc.1 ("DB:" ++ k) "uses").add_edge ("DB:" ++ k) pc.1 "used_by")
        g)
    g

/-- Step 4 of `analyze_data_flow` (Test.py lines 1903-1927): the import-edge
loop reads each file from disk and resolves import tokens against the other
analyzed files; the resolved pairs are passed in as a list here, each pair
consisting of the reading file path and the resolved other file path, and each
contributes an `imports` edge. -/
def addImportEdges (g : DiGraph) (imps : List (String × String)) : DiGraph :=
  imps.foldl (fun g e => g.add_edge e.1 e.2 "imports") g

/-- Basename of a path, as `os.path.basename` for slash-separated paths. -/
def pathBasename (p : String) : String :=
  String.mk (((p.toList.reverse.takeWhile (fun c => c ≠ '/'))).reverse)

/-- Output record built for one graph node (Test.py lines 1931-1947): file and
database nodes are emitted with their attributes (a missing `has_db` /
`db_types` attribute defaults to `False` / `[]`; the database record carries no
such keys, rendered here as the defaults), any node whose `type` attribute is
absent or different is skipped. -/
def outNodeEntry (p : String × NodeAttrs) : Option OutNode :=
  match p.2.ntype with
  | some "file" =>
    some ⟨p.1, pathBasename p.1, "file", p.2.has_db.getD false, p.2.db_types.getD []⟩
  | some "database" =>
    some ⟨p.1, String.replace p.1 "DB:" "", "database", false, []⟩
  | _ => none

/-- Output node records (Test.py lines 1930-1947). -/
def outNodes (g : DiGraph) : List OutNode :=
  g.nodes.filterMap outNodeEntry

/-- Output edge records (Test.py lines 1949-1955). -/
def outEdges (g : DiGraph) : List OutEdge :=
  g.edges.map (fun e => ⟨e.1, e.2.1, e.2.2⟩)

/-- ETL qualification test of Test.py line 1960: a database connection plus at
least one of the four data-movement API kinds among the file pattern hits. -/
def etlQualifies (f : FileData) : Bool :=
  f.has_db_connection &&
    (["REST API", "ETL Process", "File System", "Cloud Storage"].any
      (fun api => api ∈ f.api_patterns))

/-- Models `CodeAnalyzer.analyze_data_flow` (Test.py lines 1873-1973).  The
`files_data` records and the `db_connections` dict are passed as lists; the
filesystem-dependent import resolution is abstracted by the resolved pair list
`imps` (every pair the source loop produces links two paths of `files`).  The
unused `functions` and `api_usage` parameters of the source are omitted. -/
def analyze_data_flow (files : List FileData) (conns : List (String × List String))
    (imps : List (String × String)) : DataFlowResult :=
  let allKinds := pyDedup (conns.foldr (fun pc acc => pc.2 ++ acc) [])
  let g := addImportEdges (addDbEdges (addDbNodes (addFileNodes DiGraph.emptyGraph files) allKinds) conns) imps
  { graph_nodes := outNodes g
    graph_edges := outEdges g
    etl_candidates :=
      (files.filter etlQualifies).map (fun f => ⟨f.path, f.db_types, f.api_patterns⟩) }

/-- Modelled from the spec: classification tag of an extracted SQL statement
(spec section 3, `SqlStatement`); the SQL extraction and lineage-graph builder
(`buildLineageGraph(allDataframeOps, allSqlStatements)`, spec section 4.5) is
not part of the five source files under analysis, so it is reconstructed here
from the specification text. -/
inductive SqlKind where
  | select
  | insert
  | update
  | otherSql
deriving Repr, DecidableEq

/-- Modelled from the spec: an extracted SQL statement with its raw text,
classification and referenced table names (spec section 3, `SqlStatement`). -/
structure SqlStatement where
  rawText : String
  kind : SqlKind
  tables : List String
deriving Repr, DecidableEq

/-- Modelled from the spec: the SQL part of the lineage-graph builder (spec
section 4.5): for every SQL statement classified as a SELECT and every table it
references, insert the table node and the synthesized
`result_of_<table>_query` node idempotently and add a table to query-result
edge labeled `SQL_SELECT`. -/
def buildSqlLineage (stmts : List SqlStatement) : DiGraph :=
  stmts.foldl
    (fun g s =>
      match s.kind with
      | SqlKind.select =>
        s.tables.foldl
          (fun g t =>
            let g := g.add_node t ⟨some "table", none, none⟩
            let g := g.add_node ("result_of_" ++ t ++ "_query") ⟨some "query_result", none, none⟩
            g.add_edge t ("result_of_" ++ t ++ "_query") "SQL_SELECT")
          g
      | _ => g)
    DiGraph.emptyGraph

/-- Lookup of the attribute dictionary stored for a node id. -/
def DiGraph.attrOf (g : DiGraph) (id : String) : Option NodeAttrs :=
  (g.nodes.find? (fun p => p.1 = id)).map (fun p => p.2)

/-- Lookup of the `type` attribute stored for an edge key (source, target). -/
def DiGraph.edgeTypeOf (g : DiGraph) (u v : String) : Option String :=
  (g.edges.find? (fun e => e.1 = u ∧ e.2.1 = v)).map (fun e => e.2.2)

/-- Syntactic kind of a parameter default-value expression, as far as
`PythonAnalyzer.detect_issues` distinguishes them (`ast.List`, `ast.Dict`,
`ast.Set` versus anything else). -/
inductive PyExprKind where
  | listLit
  | dictLit
  | setLit
  | otherExpr

/-- Shallow model of the Python AST as consumed by `PythonAnalyzer` and by the
Python branch of `CodeAnalyzer.extract_functions`: one constructor per node
kind the code tests with `isinstance`, and a generic `otherNode` for every
other statement or expression.  Child statements and subexpressions are kept in
source field order (`ast.iter_child_nodes` order); for function and class
definitions the non-body children (arguments, bases, decorators, returns) are
collected in `extra`.  A bare string-literal expression statement is
`strConst`, which is what `ast.get_docstring` recognizes in the first body
position. -/
inductive PyNode where
  | functionDef (name : String) (params : List String) (defaults : List PyExprKind)
      (lineno endLineno : Nat) (extra : List PyNode) (body : List PyNode)
  | classDef (name : String) (lineno : Nat) (extra : List PyNode) (body : List PyNode)
  | ifStmt (children : List PyNode)
  | forStmt (children : List PyNode)
  | whileStmt (children : List PyNode)
  | tryStmt (children : List PyNode)
  | exceptHandler (lineno : Nat) (body : List PyNode)
  | boolOpExpr (children : List PyNode)
  | importStmt (names : List String)
  | importFrom (moduleName : String) (names : List String)
  | passStmt
  | strConst
  | otherNode (children : List PyNode)

/-- Child list of a node, in `ast.iter_child_nodes` order. -/
def PyNode.children : PyNode → List PyNode
  | .functionDef _ _ _ _ _ extra body => extra ++ body
  | .classDef _ _ extra body => extra ++ body
  | .ifStmt c => c
  | .forStmt c => c
  | .whileStmt c => c
  | .tryStmt c => c
  | .exceptHandler _ body => body
  | .boolOpExpr c => c
  | .importStmt _ => []
  | .importFrom _ _ => []
  | .passStmt => []
  | .strConst => []
  | .otherNode c => c

mutual

/-- Structural weight of a node, the termination measure of the breadth-first
walk. -/
def nodeWeight : PyNode → Nat
  | .functionDef _ _ _ _ _ extra body => 1 + listWeight extra + listWeight body
  | .classDef _ _ extra body => 1 + listWeight extra + listWeight body
  | .ifStmt c => 1 + listWeight c
  | .forStmt c => 1 + listWeight c
  | .whileStmt c => 1 + listWeight c
  | .tryStmt c => 1 + listWeight c
  | .exceptHandler _ body => 1 + listWeight body
  | .boolOpExpr c => 1 + listWeight c
  | .importStmt _ => 1
  | .importFrom _ _ => 1
  | .passStmt => 1
  | .strConst => 1
  | .otherNode c => 1 + listWeight c

/-- Total structural weight of a list of nodes. -/
def listWeight : List PyNode → Nat
  | [] => 0
  | n :: ns => nodeWeight n + listWeight ns

end

/-- Breadth-first traversal queue, modelling the deque loop of `ast.walk`:
pop the front node, emit it, and push its children at the back. -/
def walkAux : List PyNode → List PyNode
  | [] => []
  | n :: todo => n :: walkAux (todo ++ n.children)
termination_by l => listWeight l
decreasing_by
  have happ : ∀ (a b : List PyNode), listWeight (a ++ b) = listWeight a + listWeight b := by
    intro a b
    induction a with
    | nil => simp [listWeight]
    | cons x xs ih => simp [listWeight, ih, Nat.add_assoc]
  have hch : ∀ (v : PyNode), listWeight v.children < nodeWeight v := by
    intro v
    cases v <;> simp [PyNode.children, nodeWeight, listWeight, happ]
  simp only [listWeight, happ]
  have := hch n
  omega

/-- Models `ast.walk(t)` (breadth-first, root first). -/
def walk (t : PyNode) : List PyNode :=
  walkAux [t]

/-- Test for `isinstance(node, ast.FunctionDef)`. -/
def isFunctionDef : PyNode → Bool
  | .functionDef _ _ _ _ _ _ _ => true
  | _ => false

/-- Test for `isinstance(node, ast.ClassDef)`. -/
def isClassDef : PyNode → Bool
  | .classDef _ _ _ _ => true
  | _ => false

/-- Test for `isinstance(node, (ast.FunctionDef, ast.ClassDef))`. -/
def isFuncOrClass (n : PyNode) : Bool :=
  isFunctionDef n || isClassDef n

/-- Test for `isinstance(node, ast.If)`. -/
def isIf : PyNode → Bool
  | .ifStmt _ => true
  | _ => false

/-- Test for `isinstance(node, ast.For)`. -/
def isFor : PyNode → Bool
  | .forStmt _ => true
  | _ => false

/-- Test for `isinstance(node, ast.While)`. -/
def isWhile : PyNode → Bool
  | .whileStmt _ => true
  | _ => false

/-- Test for `isinstance(node, ast.Try)`. -/
def isTry : PyNode → Bool
  | .tryStmt _ => true
  | _ => false

/-- Test for `isinstance(node, ast.BoolOp)`. -/
def isBoolOp : PyNode → Bool
  | .boolOpExpr _ => true
  | _ => false

/-- Test for `isinstance(node, (ast.If, ast.For, ast.While, ast.Try))`, the
control-structure check of `_calculate_cognitive_complexity`. -/
def isControl (n : PyNode) : Bool :=
  isIf n || isFor n || isWhile n || isTry n

/-- Test for `isinstance(node, ast.Pass)`. -/
def isPass : PyNode → Bool
  | .passStmt => true
  | _ => false

/-- Test for `ast.get_docstring(node)` being non-None on a function or class
body: the first body statement is a bare string-constant expression. -/
def bodyHasDocstring (body : List PyNode) : Bool :=
  match body.head? with
  | some .strConst => true
  | _ => false

/-- Models `PythonAnalyzer._count_functions` (walk and count FunctionDef). -/
def count_functions (t : PyNode) : Nat :=
  (walk t).countP isFunctionDef

/-- Models `PythonAnalyzer._count_classes` (walk and count ClassDef). -/
def count_classes (t : PyNode) : Nat :=
  (walk t).countP isClassDef

/-- Line classification result of `PythonAnalyzer._count_lines`. -/
structure LineCounts where
  total : Nat
  code : Nat
  comments : Nat
  blank : Nat
deriving Repr, DecidableEq

/-- Models `PythonAnalyzer._count_lines` on the splitlines of the file: blank
lines are whitespace-only, comment lines start with `#` after stripping, code
lines are the rest. -/
def count_lines (content : List String) : LineCounts :=
  if content.isEmpty then ⟨0, 0, 0, 0⟩
  else
    let total := content.length
    let blank := content.countP (fun l => (pyStrip l.toList).isEmpty)
    let comments := content.countP (fun l => (pyStrip l.toList).head? = some '#')
    ⟨total, total - blank - comments, comments, blank⟩

/-- Counter block of `PythonAnalyzer._calculate_complexity`. -/
structure ComplexityCounts where
  if_statements : Nat
  for_loops : Nat
  while_loops : Nat
  try_except : Nat
  boolean_ops : Nat
  total_complexity : Nat
deriving Repr, DecidableEq

/-- Models `PythonAnalyzer._calculate_complexity`: walk counts of conditionals,
loops, exception blocks and boolean operators, summed into the total. -/
def calculate_complexity (tree : Option PyNode) : ComplexityCounts :=
  match tree with
  | none => ⟨0, 0, 0, 0, 0, 0⟩
  | some t =>
    let ifs := (walk t).countP isIf
    let fors := (walk t).countP isFor
    let whiles := (walk t).countP isWhile
    let trys := (walk t).countP isTry
    let bools := (walk t).countP isBoolOp
    ⟨ifs, fors, whiles, trys, bools, ifs + fors + whiles + trys + bools⟩

/-- One step of the running counter of
`PythonAnalyzer._calculate_cognitive_complexity`, in the statement order of the
loop body: add 1 for a function/class, add `1 + nesting_level` and increment
the level for a control structure, then reset the level after a function/class. -/
def cogStep (st : Nat × Nat) (n : PyNode) : Nat × Nat :=
  let c1 := if isFuncOrClass n then st.1 + 1 else st.1
  let c2 := if isControl n then c1 + 1 + st.2 else c1
  let lvl2 := if isControl n then st.2 + 1 else st.2
  let lvl3 := if isFuncOrClass n then 0 else lvl2
  (c2, lvl3)

/-- Models `PythonAnalyzer._calculate_cognitive_complexity`: the running
counter folded over the breadth-first `ast.walk` order (the final `float()`
cast of the source is the identity on this integer counter). -/
def calculate_cognitive_complexity (tree : Option PyNode) : Nat :=
  match tree with
  | none => 0
  | some t => ((walk t).foldl cogStep (0, 0)).1

/-- Models `PythonAnalyzer._calculate_docstring_coverage`: percentage of
functions and classes carrying a docstring, 100 when there are none. -/
def calculate_docstring_coverage (tree : Option PyNode) : ℚ :=
  match tree with
  | none => 0
  | some t =>
    let items := (walk t).filter isFuncOrClass
    if items.length = 0 then 100
    else
      let withDoc := items.countP fun n =>
        match n with
        | .functionDef _ _ _ _ _ _ body => bodyHasDocstring body
        | .classDef _ _ _ body => bodyHasDocstring body
        | _ => false
      (withDoc : ℚ) / (items.length : ℚ) * 100

/-- Count of functions longer than `threshold` lines
(`node.end_lineno - node.lineno > threshold`), as in
`_calculate_maintainability` (threshold 30) and `detect_issues` (threshold 50). -/
def count_long_functions (t : PyNode) (threshold : Int) : Nat :=
  (walk t).countP fun n =>
    match n with
    | .functionDef _ _ _ ln el _ _ => decide ((el : Int) - (ln : Int) > threshold)
    | _ => false

/-- Models `PythonAnalyzer._calculate_maintainability`: the pair
(maintainability score, technical-debt ratio).  The four debt penalties are
only assessed when there is at least one code line; the long-function penalty
is `20 * long_functions / max(1, function_count)`; the total is capped at 100. -/
def calculate_maintainability (content : List String) (tree : Option PyNode) : ℚ × ℚ :=
  match tree with
  | none => (0, 100)
  | some t =>
    let lines := count_lines content
    let cx := calculate_complexity (some t)
    let fc := count_functions t + count_classes t
    let volume : ℚ := (lines.code : ℚ) * ((cx.total_complexity : ℚ) / ((max 1 fc : Nat) : ℚ))
    let score : ℚ := max 0 (min 100 (100 - volume / 10))
    let debt : ℚ :=
      if lines.code > 0 then
        (if (lines.comments : ℚ) / (lines.code : ℚ) < 0.1 then 20 else 0)
          + (if (cx.total_complexity : ℚ) / ((max 1 lines.code : Nat) : ℚ) > 0.1 then 20 else 0)
          + (if calculate_docstring_coverage (some t) < 50 then 20 else 0)
          + (if count_long_functions t 30 > 0 then
              20 * ((count_long_functions t 30 : ℚ) / ((max 1 (count_functions t) : Nat) : ℚ))
            else 0)
      else 0
    (score, min 100 debt)

/-- Models `PythonAnalyzer._extract_imports`: dotted names collected from
Import and ImportFrom nodes in walk order. -/
def extract_imports (tree : Option PyNode) : List String :=
  match tree with
  | none => []
  | some t =>
    ((walk t).map fun n =>
      match n with
      | .importStmt names => names
      | .importFrom m names => names.map (fun na => m ++ "." ++ na)
      | _ => []).flatten

/-- Issue entry of the `issues` list inside `_create_error_metrics`. -/
structure RawIssue where
  rtype : String
  message : String
  line : Nat
  severity : String
deriving Repr, DecidableEq

/-- Flattened metrics dictionary returned by `PythonAnalyzer.analyze` (the
nested size/structure/complexity/documentation/maintainability keys are
flattened into one record; `comment_percent` is the `comment_ratio` entry of
the source, renamed). -/
structure Metrics where
  path : String
  lines_total : Nat
  lines_code : Nat
  lines_comment : Nat
  lines_blank : Nat
  functions : Nat
  classes : Nat
  imports : Nat
  cyclomatic : Nat
  cognitive : Nat
  if_statements : Nat
  loops : Nat
  docstring_coverage : ℚ
  comment_percent : ℚ
  score : ℚ
  debt : ℚ
  issues : List RawIssue
deriving Repr, DecidableEq

/-- Models `PythonAnalyzer._create_error_metrics`: the all-zero sentinel with
debt ratio 100 and a single error issue entry. -/
def create_error_metrics (path msg : String) : Metrics :=
  { path := path
    lines_total := 0, lines_code := 0, lines_comment := 0, lines_blank := 0
    functions := 0, classes := 0, imports := 0
    cyclomatic := 0, cognitive := 0, if_statements := 0, loops := 0
    docstring_coverage := 0, comment_percent := 0
    score := 0, debt := 100
    issues := [⟨"error", msg, 1, "error"⟩] }

/-- Models `PythonAnalyzer.analyze`: the error sentinel when the parse failed,
otherwise the assembled metrics. -/
def analyze (path : String) (content : List String) (tree : Option PyNode) : Metrics :=
  match tree with
  | none => create_error_metrics path "Failed to parse Python code"
  | some t =>
    let lines := count_lines content
    let cx := calculate_complexity (some t)
    let mnt := calculate_maintainability content (some t)
    { path := path
      lines_total := lines.total, lines_code := lines.code
      lines_comment := lines.comments, lines_blank := lines.blank
      functions := count_functions t, classes := count_classes t
      imports := (extract_imports (some t)).length
      cyclomatic := cx.total_complexity
      cognitive := calculate_cognitive_complexity (some t)
      if_statements := cx.if_statements
      loops := cx.for_loops + cx.while_loops
      docstring_coverage := calculate_docstring_coverage (some t)
      comment_percent := (lines.comments : ℚ) / ((max lines.code 1 : Nat) : ℚ) * 100
      score := mnt.1, debt := mnt.2
      issues := [] }

/-- Severity levels of `IssueSeverity` in python_analyzer.py. -/
inductive IssueSeverity where
  | high
  | medium
  | low
deriving Repr, DecidableEq

/-- Issue record of python_analyzer.py (`Issue.__init__`). -/
structure Issue where
  file : String
  line : Nat
  message : String
  severity : IssueSeverity
  category : String
  recommendation : String
deriving Repr, DecidableEq

/-- Models `PythonAnalyzer.detect_issues`: for an unparseable file the single
High/Syntax issue; otherwise the five detection passes in source order (long
functions, too many arguments, missing docstrings, complex functions, and the
combined empty-except / mutable-default walk). -/
def detect_issues (path : String) (tree : Option PyNode) : List Issue :=
  match tree with
  | none =>
    [⟨path, 1, "Failed to parse Python code", IssueSeverity.high, "Syntax",
      "Fix the syntax errors in the file to enable proper analysis."⟩]
  | some t =>
    let pass1 := (walk t).filterMap fun n =>
      match n with
      | .functionDef name _ _ ln el _ _ =>
        let span : Int := (el : Int) - (ln : Int)
        if span > 50 then
          some ⟨path, ln,
            "Function \x27" ++ name ++ "\x27 is too long (" ++ toString span ++ " lines)",
            IssueSeverity.medium, "Maintainability",
            "Consider breaking this function into smaller, more focused functions."⟩
        else none
      | _ => none
    let pass2 := (walk t).filterMap fun n =>
      match n with
      | .functionDef name params _ ln _ _ _ =>
        if params.length > 5 then
          some ⟨path, ln,
            "Function \x27" ++ name ++ "\x27 has too many arguments (" ++
              toString params.length ++ ")",
            IssueSeverity.medium, "Design",
            "Consider grouping related parameters into a class or using keyword arguments."⟩
        else none
      | _ => none
    let pass3 := (walk t).filterMap fun n =>
      match n with
      | .functionDef name _ _ ln _ _ body =>
        if bodyHasDocstring body then none
        else
          some ⟨path, ln, "Missing docstring in function \x27" ++ name ++ "\x27",
            IssueSeverity.low, "Documentation",
            "Add a docstring to describe what this function does."⟩
      | .classDef name ln _ body =>
        if bodyHasDocstring body then none
        else
          some ⟨path, ln, "Missing docstring in class \x27" ++ name ++ "\x27",
            IssueSeverity.low, "Documentation",
            "Add a docstring to describe what this class does."⟩
      | _ => none
    let pass4 := (walk t).filterMap fun n =>
      match n with
      | .functionDef name _ _ ln _ _ _ =>
        let cx := (walk n).countP isIf
          + ((walk n).countP isFor + (walk n).countP isWhile)
          + (walk n).countP isTry
        if cx > 10 then
          some ⟨path, ln,
            "Function \x27" ++ name ++ "\x27 is too complex (complexity: " ++
              toString cx ++ ")",
            IssueSeverity.high, "Complexity",
            "Refactor this function to reduce its complexity by extracting logic into helper functions."⟩
        else none
      | _ => none
    let pass5 := ((walk t).map fun n =>
      match n with
      | .exceptHandler ln body =>
        if body.isEmpty || body.all isPass then
          [⟨path, ln, "Empty except block", IssueSeverity.high, "Error Handling",
            "Empty except blocks hide errors. Either handle the exception properly or log it."⟩]
        else []
      | .functionDef name _ defaults ln _ _ _ =>
        defaults.filterMap fun d =>
          match d with
          | .listLit =>
            some ⟨path, ln, "Mutable default argument in function \x27" ++ name ++ "\x27",
              IssueSeverity.medium, "Bug Risk",
              "Using mutable objects as default arguments can lead to unexpected behavior. Use None instead."⟩
          | .dictLit =>
            some ⟨path, ln, "Mutable default argument in function \x27" ++ name ++ "\x27",
              IssueSeverity.medium, "Bug Risk",
              "Using mutable objects as default arguments can lead to unexpected behavior. Use None instead."⟩
          | .setLit =>
            some ⟨path, ln, "Mutable default argument in function \x27" ++ name ++ "\x27",
              IssueSeverity.medium, "Bug Risk",
              "Using mutable objects as default arguments can lead to unexpected behavior. Use None instead."⟩
          | .otherExpr => none
      | _ => []).flatten
    pass1 ++ pass2 ++ pass3 ++ pass4 ++ pass5

/-- Test used by the enclosing-class search of
`CodeAnalyzer.extract_functions` (Test.py lines 1357-1364): a direct body item
that is a FunctionDef with the given name. -/
def bodyItemIsFunctionNamed (fname : String) : PyNode → Bool
  | .functionDef n _ _ _ _ _ _ => n = fname
  | _ => false

/-- Test for a class definition one of whose direct body items is a FunctionDef
with the given name. -/
def classHasMethodNamed (fname : String) : PyNode → Bool
  | .classDef _ _ _ body => body.any (bodyItemIsFunctionNamed fname)
  | _ => false

/-- Models the enclosing-class search of `CodeAnalyzer.extract_functions`
(Test.py lines 1355-1364): re-walk the whole tree and return the name of the
first class whose direct body contains a FunctionDef with the same name as the
extracted function. -/
def find_parent_class (t : PyNode) (fname : String) : Option String :=
  (walk t).findSome? fun n =>
    match n with
    | .classDef cname _ _ body =>
      if body.any (bodyItemIsFunctionNamed fname) then some cname else none
    | _ => none

/-- Function record produced by the Python AST branch of
`CodeAnalyzer.extract_functions` (Test.py lines 1336-1375), restricted to the
fields the claims read (the decorator list of the source record is not
modelled). -/
structure FunctionRec where
  name : String
  is_method : Bool
  parent_class : Option String
  docstring : Bool
  parameters : List String
  line_number : Nat
deriving Repr, DecidableEq

/-- Models the Python AST branch of `CodeAnalyzer.extract_functions`: one
record per FunctionDef node in walk order, with the enclosing-class search by
method-name equality. -/
def extract_functions_python (t : PyNode) : List FunctionRec :=
  (walk t).filterMap fun n =>
    match n with
    | .functionDef name params _ ln _ _ body =>
      some
        { name := name
          is_method := (find_parent_class t name).isSome
          parent_class := find_parent_class t name
          docstring := bodyHasDocstring body
          parameters := params
          line_number := ln }
    | _ => none

/-- Triangular numbers: `triangular m` is 1 + 2 + ... + m, the total cost of a
run of m control-structure nodes whose j-th member costs j. -/
def triangular : Nat → Nat
  | 0 => 0
  | m + 1 => triangular m + (m + 1)

mutual

/-- Nesting-aware reference cognitive complexity, written from the claim text:
1 per function/class encountered, `1 + depth` per control-structure node where
the depth increases only while descending into nested control structures, and
the depth resets to zero at each function/class boundary. -/
def refCogNode (d : Nat) : PyNode → Nat
  | .functionDef _ _ _ _ _ extra body => 1 + refCogList 0 extra + refCogList 0 body
  | .classDef _ _ extra body => 1 + refCogList 0 extra + refCogList 0 body
  | .ifStmt c => 1 + d + refCogList (d + 1) c
  | .forStmt c => 1 + d + refCogList (d + 1) c
  | .whileStmt c => 1 + d + refCogList (d + 1) c
  | .tryStmt c => 1 + d + refCogList (d + 1) c
  | .exceptHandler _ body => refCogList d body
  | .boolOpExpr c => refCogList d c
  | .importStmt _ => 0
  | .importFrom _ _ => 0
  | .passStmt => 0
  | .strConst => 0
  | .otherNode c => refCogList d c

/-- List version of `refCogNode`. -/
def refCogList (d : Nat) : List PyNode → Nat
  | [] => 0
  | n :: ns => refCogNode d n + refCogList d ns

end

/-- Reference cognitive complexity of a parsed file, per the claim text. -/
def refCognitive (t : PyNode) : Nat :=
  refCogNode 0 t

/-- Closed-form description of what the source counter actually computes: 1 per
function/class node, and for every maximal run of the breadth-first walk lying
between two function/class boundaries, `triangular m` where m is the number of
control-structure nodes in the run (the j-th control node of a run costs j,
regardless of lexical nesting). -/
def bfsRunCognitive (t : PyNode) : Nat :=
  (walk t).countP isFuncOrClass +
    ((splitSeg isFuncOrClass (walk t)).map (fun seg => triangular (seg.countP isControl))).sum

/-- Attribute dictionary every database node receives (Test.py line 1887). -/
def dbNodeAttrs : NodeAttrs :=
  ⟨some "database", none, none⟩

/-- Subtree relation on the modelled AST: `Subnode x t` holds when `x` is `t`
itself or occurs in the subtree of one of the children of `t`; this is the
meaning of a node occurring anywhere in the parsed file. -/
inductive Subnode : PyNode → PyNode → Prop where
  | refl (t : PyNode) : Subnode t t
  | step {x c t : PyNode} : c ∈ t.children → Subnode x c → Subnode x t

/-- Truth values of the first three debt penalties of
`_calculate_maintainability` (low comment ratio, high complexity density, low
docstring coverage), in source order. -/
def firstThreeDebtFlags (content : List String) (t : PyNode) : List Bool :=
  let lines := count_lines content
  let cx := calculate_complexity (some t)
  [decide ((lines.comments : ℚ) / (lines.code : ℚ) < 0.1),
   decide ((cx.total_complexity : ℚ) / ((max 1 lines.code : Nat) : ℚ) > 0.1),
   decide (calculate_docstring_coverage (some t) < 50)]

/-- Long-function debt contribution of `_calculate_maintainability`:
`20 * long_functions / max(1, function_count)` when at least one function is
longer than 30 lines, zero otherwise. -/
def long_function_penalty (t : PyNode) : ℚ :=
  if count_long_functions t 30 > 0 then
    20 * ((count_long_functions t 30 : ℚ) / ((max 1 (count_functions t) : Nat) : ℚ))
  else 0

/-- Debt formula as the claim states it: 20 points per triggered penalty
condition, the fourth condition being the presence of at least one long
function, capped at 100. -/
def claim_debt (content : List String) (t : PyNode) : ℚ :=
  min 100
    (20 * (((firstThreeDebtFlags content t ++ [decide (count_long_functions t 30 > 0)]).countP
      (fun b => b) : Nat) : ℚ))

/-- Debt formula the source actually computes, restated: 20 points per
triggered condition among the first three plus the fractional long-function
penalty, capped at 100. -/
def amended_debt (content : List String) (t : PyNode) : ℚ :=
  min 100
    (20 * (((firstThreeDebtFlags content t).countP (fun b => b) : Nat) : ℚ)
      + long_function_penalty t)

/-- Literal parameter text of the specification boundary case
`f(a, b=[1,2], c={"x":1})` (spec section 8), between the parentheses. -/
def specimen_decl : List Char :=
  "f(a, b=[1,2], c=\x7b\x22x\x22:1\x7d)".toList

/-- Module with two sibling `if` statements and nothing else, the refuting
input for the cognitive-complexity claim. -/
def twoSiblingIfs : PyNode :=
  PyNode.otherNode [PyNode.ifStmt [], PyNode.ifStmt []]

/-- Module with two functions, the first 39 lines long and the second 1 line
long, neither documented; the refuting input for the fixed long-function
penalty. -/
def twoFunModule : PyNode :=
  PyNode.otherNode
    [PyNode.functionDef "f" [] [] 1 40 [] [PyNode.passStmt],
     PyNode.functionDef "g" [] [] 41 42 [] [PyNode.passStmt]]

/-- One uncommented code line, companion content for `twoFunModule`. -/
def oneCodeLine : List String :=
  ["x = 1"]

/-- Module with a class `C` whose method is named `helper` and an unrelated
module-level function also named `helper`: the name-equality attribution
specimen. -/
def moduleLevelClash : PyNode :=
  PyNode.otherNode
    [PyNode.classDef "C" 1 []
      [PyNode.functionDef "helper" [] [] 2 3 [] [PyNode.passStmt]],
     PyNode.functionDef "helper" [] [] 5 6 [] [PyNode.passStmt]]

/-- Matcher used by concrete witnesses: a pattern matches any text exactly when
the pattern string is `psycopg2` or `requests\.` (one PostgreSQL pattern and
one REST-API pattern of the catalogs). -/
def mWitness : String → String → Bool :=
  fun pat _ => pat == "psycopg2" || pat == "requests\\."

/-! Helper lemmas. -/

/-- Prepending a namespace tag to different strings gives different ids. -/
theorem db_tag_left_cancel {a b : String} (h : "DB:" ++ a = "DB:" ++ b) : a = b := by
  have hd := congrArg String.data h
  simp only [String.data_append] at hd
  exact String.ext (List.append_cancel_left hd)

/-- A string whose first character is not `D` is not a `DB:`-tagged id. -/
theorem ne_db_tag_of_head {s : String} (h : s.data.head? ≠ some 'D') (K : String) :
    s ≠ "DB:" ++ K := by
  intro he
  apply h
  have hd := congrArg String.data he
  simp only [String.data_append] at hd
  rw [hd]
  rfl

/-- Membership in the scan accumulator loop: a kind is in the result exactly
when it was already accumulated or some pattern of one of its catalog entries
matches. -/
theorem mem_scanAux (m : String → String → Bool) (content : String) :
    ∀ (cat : List (String × List String)) (acc : List String) (k : String),
    k ∈ scanAux m content cat acc ↔
      k ∈ acc ∨ ∃ ps, (k, ps) ∈ cat ∧ ps.any (fun p => m p content) = true := by
  intro cat
  induction cat with
  | nil => intro acc k; simp [scanAux]
  | cons e rest ih =>
    obtain ⟨kind, pats⟩ := e
    intro acc k
    by_cases hm : pats.any (fun p => m p content) = true
    · rw [scanAux, if_pos hm]
      rw [ih]
      by_cases hk : kind ∈ acc
      · rw [if_pos hk]
        constructor
        · rintro (h | ⟨ps, hps, hma⟩)
          · exact Or.inl h
          · exact Or.inr ⟨ps, List.mem_cons_of_mem _ hps, hma⟩
        · rintro (h | ⟨ps, hps, hma⟩)
          · exact Or.inl h
          · rcases List.mem_cons.mp hps with heq | hps'
            · cases heq
              exact Or.inl hk
            · exact Or.inr ⟨ps, hps', hma⟩
      · rw [if_neg hk]
        constructor
        · rintro (h | ⟨ps, hps, hma⟩)
          · rcases List.mem_append.mp h with h' | h'
            · exact Or.inl h'
            · rcases List.mem_singleton.mp h' with rfl
              exact Or.inr ⟨pats, List.mem_cons_self _ _, hm⟩
          · exact Or.inr ⟨ps, List.mem_cons_of_mem _ hps, hma⟩
        · rintro (h | ⟨ps, hps, hma⟩)
          · exact Or.inl (List.mem_append.mpr (Or.inl h))
          · rcases List.mem_cons.mp hps with heq | hps'
            · cases heq
              exact Or.inl (List.mem_append.mpr (Or.inr (List.mem_singleton.mpr rfl)))
            · exact Or.inr ⟨ps, hps', hma⟩
    · rw [scanAux, if_neg hm]
      rw [ih]
      constructor
      · rintro (h | ⟨ps, hps, hma⟩)
        · exact Or.inl h
        · exact Or.inr ⟨ps, List.mem_cons_of_mem _ hps, hma⟩
      · rintro (h | ⟨ps, hps, hma⟩)
        · exact Or.inl h
        · rcases List.mem_cons.mp hps with heq | hps'
          · cases heq
            exact absurd hma hm
          · exact Or.inr ⟨ps, hps', hma⟩

/-- The scan loop never duplicates an accumulated kind. -/
theorem nodup_scanAux (m : String → String → Bool) (content : String) :
    ∀ (cat : List (String × List String)) (acc : List String),
    acc.Nodup → (scanAux m content cat acc).Nodup := by
  intro cat
  induction cat with
  | nil => intro acc h; simpa [scanAux] using h
  | cons e rest ih =>
    obtain ⟨kind, pats⟩ := e
    intro acc h
    rw [scanAux]
    by_cases hm : pats.any (fun p => m p content) = true
    · rw [if_pos hm]
      by_cases hk : kind ∈ acc
      · rw [if_pos hk]
        exact ih acc h
      · rw [if_neg hk]
        refine ih _ ?_
        simp [List.nodup_append, h, hk]
    · rw [if_neg hm]
      exact ih acc h

/-- The scan loop appends new kinds after the accumulator, in catalog order: the
suffix it adds is a sublist of the catalog kind names. -/
theorem scanAux_sublist (m : String → String → Bool) (content : String) :
    ∀ (cat : List (String × List String)) (acc : List String),
    ∃ s, scanAux m content cat acc = acc ++ s ∧ s.Sublist (cat.map Prod.fst) := by
  intro cat
  induction cat with
  | nil => intro acc; exact ⟨[], by simp [scanAux]⟩
  | cons e rest ih =>
    obtain ⟨kind, pats⟩ := e
    intro acc
    rw [scanAux]
    by_cases hm : pats.any (fun p => m p content) = true
    · rw [if_pos hm]
      by_cases hk : kind ∈ acc
      · rw [if_pos hk]
        obtain ⟨s, hs, hsub⟩ := ih acc
        exact ⟨s, hs, hsub.cons _⟩
      · rw [if_neg hk]
        obtain ⟨s, hs, hsub⟩ := ih (acc ++ [kind])
        refine ⟨kind :: s, ?_, ?_⟩
        · rw [hs, List.append_assoc]
          rfl
        · simpa using hsub.cons₂ kind
    · rw [if_neg hm]
      obtain ⟨s, hs, hsub⟩ := ih acc
      exact ⟨s, hs, hsub.cons _⟩

/-- Deduplication keeps exactly the members. -/
theorem mem_pyDedup (l : List String) (x : String) : x ∈ pyDedup l ↔ x ∈ l := by
  induction l with
  | nil => simp [pyDedup]
  | cons a as ih =>
    rw [pyDedup]
    by_cases ha : a ∈ as
    · simp only [ha, if_true, ih, List.mem_cons]
      constructor
      · exact Or.inr
      · rintro (rfl | h)
        · exact ha
        · exact h
    · simp [ha, ih]

/-- Splitting the empty list yields one empty segment. -/
theorem splitSeg_nil (p : α → Bool) : splitSeg p [] = [[]] := rfl

/-- Segment splitting never produces an empty list of segments. -/
theorem splitSeg_ne_nil (p : α → Bool) (l : List α) : splitSeg p l ≠ [] := by
  induction l with
  | nil => simp [splitSeg]
  | cons a as ih =>
    simp only [splitSeg, List.foldr_cons] at *
    cases h : List.foldr _ [[]] as with
    | nil => simp
    | cons s ss => simp only [h] at *; split <;> simp

/-- Unfolding equation of the segment splitter on a cons cell. -/
theorem splitSeg_cons (p : α → Bool) (a : α) (l : List α) :
    splitSeg p (a :: l) =
      match splitSeg p l with
      | s :: ss => if p a then [] :: s :: ss else (a :: s) :: ss
      | [] => [[a]] := rfl

/-- Splitting at a separator element opens a fresh segment. -/
theorem splitSeg_cons_pos (p : α → Bool) (a : α) (l : List α) (h : p a = true) :
    splitSeg p (a :: l) = [] :: splitSeg p l := by
  rw [splitSeg_cons]
  cases hs : splitSeg p l with
  | nil => exact absurd hs (splitSeg_ne_nil p l)
  | cons s ss => simp [h]

/-- A non-separator element is prepended to the first segment. -/
theorem splitSeg_cons_neg (p : α → Bool) (a : α) (l : List α) (h : p a = false) :
    ∃ s ss, splitSeg p l = s :: ss ∧ splitSeg p (a :: l) = (a :: s) :: ss := by
  cases hs : splitSeg p l with
  | nil => exact absurd hs (splitSeg_ne_nil p l)
  | cons s ss =>
    refine ⟨s, ss, rfl, ?_⟩
    rw [splitSeg_cons, hs]
    simp [h]

/-- Weight of an appended node list. -/
theorem listWeight_append (a b : List PyNode) :
    listWeight (a ++ b) = listWeight a + listWeight b := by
  induction a with
  | nil => simp [listWeight]
  | cons x xs ih => simp [listWeight, ih, Nat.add_assoc]

/-- Children weigh strictly less than their parent. -/
theorem listWeight_children_lt (n : PyNode) : listWeight n.children < nodeWeight n := by
  cases n <;> simp [PyNode.children, nodeWeight, listWeight, listWeight_append]

/-- Unfolding equation of the walk queue on the empty queue. -/
theorem walkAux_nil : walkAux [] = [] := by
  simp [walkAux]

/-- Unfolding equation of the walk queue on a nonempty queue. -/
theorem walkAux_cons (n : PyNode) (todo : List PyNode) :
    walkAux (n :: todo) = n :: walkAux (todo ++ n.children) := by
  simp [walkAux]

/-- Constructor-level characterization of the subtree relation. -/
theorem subnode_iff (x t : PyNode) :
    Subnode x t ↔ x = t ∨ ∃ c ∈ t.children, Subnode x c := by
  constructor
  · intro h
    cases h with
    | refl => exact Or.inl rfl
    | step hc hs => exact Or.inr ⟨_, hc, hs⟩
  · rintro (rfl | ⟨c, hc, hs⟩)
    · exact Subnode.refl _
    · exact Subnode.step hc hs

/-- The breadth-first queue emits exactly the subtrees of its entries. -/
theorem mem_walkAux (l : List PyNode) (x : PyNode) :
    x ∈ walkAux l ↔ ∃ r ∈ l, Subnode x r := by
  generalize hw : listWeight l = w
  induction w using Nat.strong_induction_on generalizing l with
  | _ w ih =>
    cases l with
    | nil => simp [walkAux_nil]
    | cons n todo =>
      have hlt : listWeight (todo ++ n.children) < w := by
        subst hw
        rw [listWeight_append]
        have := listWeight_children_lt n
        simp only [listWeight]
        omega
      rw [walkAux_cons, List.mem_cons, ih _ hlt _ rfl]
      simp only [List.mem_append, List.mem_cons]
      constructor
      · rintro (rfl | ⟨r, hr | hr, hs⟩)
        · exact ⟨_, Or.inl rfl, Subnode.refl _⟩
        · exact ⟨r, Or.inr hr, hs⟩
        · exact ⟨n, Or.inl rfl, Subnode.step hr hs⟩
      · rintro ⟨r, hr | hr, hs⟩
        · subst hr
          rcases (subnode_iff x r).mp hs with rfl | ⟨c, hc, hcs⟩
          · exact Or.inl rfl
          · exact Or.inr ⟨c, Or.inr hc, hcs⟩
        · exact Or.inr ⟨r, Or.inl hr, hs⟩

/-- Walk membership is exactly occurrence anywhere in the tree. -/
theorem mem_walk (t x : PyNode) : x ∈ walk t ↔ Subnode x t := by
  rw [walk, mem_walkAux]
  simp

/-- A function or class node is never a control-structure node. -/
theorem isControl_of_isFuncOrClass {n : PyNode} (h : isFuncOrClass n = true) :
    isControl n = false := by
  cases n <;> simp_all [isFuncOrClass, isFunctionDef, isClassDef, isControl, isIf, isFor,
    isWhile, isTry]

/-- First component of one counter step, split off the incoming count. -/
theorem cogStep_fst (st : Nat × Nat) (n : PyNode) :
    (cogStep st n).1 = st.1 + (cogStep (0, st.2) n).1 := by
  obtain ⟨c, lvl⟩ := st
  by_cases h1 : isFuncOrClass n = true <;> by_cases h2 : isControl n = true <;>
    simp [cogStep, h1, h2] <;> omega

/-- Second component of one counter step, independent of the incoming count. -/
theorem cogStep_snd (st : Nat × Nat) (n : PyNode) :
    (cogStep st n).2 = (cogStep (0, st.2) n).2 := by
  obtain ⟨c, lvl⟩ := st
  by_cases h1 : isFuncOrClass n = true <;> by_cases h2 : isControl n = true <;>
    simp [cogStep, h1, h2]

/-- The folded counter is additive in the incoming count. -/
theorem cog_fold_fst_add (l : List PyNode) :
    ∀ (c lvl : Nat), (List.foldl cogStep (c, lvl) l).1 = c + (List.foldl cogStep (0, lvl) l).1 := by
  induction l with
  | nil => intro c lvl; simp
  | cons n ns ih =>
    intro c lvl
    simp only [List.foldl_cons]
    have ha := ih (cogStep (c, lvl) n).1 (cogStep (c, lvl) n).2
    have hb := ih (cogStep (0, lvl) n).1 (cogStep (0, lvl) n).2
    have hfst := cogStep_fst (c, lvl) n
    have hsnd := cogStep_snd (c, lvl) n
    simp only at hfst hsnd
    rw [show cogStep (c, lvl) n = ((cogStep (c, lvl) n).1, (cogStep (c, lvl) n).2) from rfl] at *
    rw [ha]
    rw [show cogStep (0, lvl) n = ((cogStep (0, lvl) n).1, (cogStep (0, lvl) n).2) from rfl]
    rw [hb, hfst, hsnd]
    omega

/-- Closed form of the source counter on an arbitrary node list: number of
function/class entries, plus the triangular cost of each run of control nodes
between consecutive function/class boundaries, plus the pending-level
correction for the first run. -/
theorem cog_fold_closed (l : List PyNode) :
    ∀ (lvl : Nat),
    (List.foldl cogStep (0, lvl) l).1 =
      l.countP isFuncOrClass
        + ((splitSeg isFuncOrClass l).map (fun seg => triangular (seg.countP isControl))).sum
        + lvl * ((splitSeg isFuncOrClass l).headD []).countP isControl := by
  induction l with
  | nil => intro lvl; simp [splitSeg_nil, triangular]
  | cons n ns ih =>
    intro lvl
    simp only [List.foldl_cons]
    have heta : (List.foldl cogStep (cogStep (0, lvl) n) ns).1
        = (cogStep (0, lvl) n).1 + (List.foldl cogStep (0, (cogStep (0, lvl) n).2) ns).1 := by
      have := cog_fold_fst_add ns (cogStep (0, lvl) n).1 (cogStep (0, lvl) n).2
      simpa using this
    rw [heta]
    by_cases hfc : isFuncOrClass n = true
    · have hctrl := isControl_of_isFuncOrClass hfc
      have h1 : (cogStep (0, lvl) n).1 = 1 := by simp [cogStep, hfc, hctrl]
      have h2 : (cogStep (0, lvl) n).2 = 0 := by simp [cogStep, hfc, hctrl]
      rw [h1, h2, ih 0, splitSeg_cons_pos _ _ _ hfc]
      simp [List.countP_cons, hfc, triangular]
      omega
    · have hfc' : isFuncOrClass n = false := by simpa using hfc
      obtain ⟨s, ss, hsplit, hsplit2⟩ := splitSeg_cons_neg isFuncOrClass n ns hfc'
      by_cases hctrl : isControl n = true
      · have h1 : (cogStep (0, lvl) n).1 = 1 + lvl := by simp [cogStep, hfc', hctrl]
        have h2 : (cogStep (0, lvl) n).2 = lvl + 1 := by simp [cogStep, hfc', hctrl]
        rw [h1, h2, ih (lvl + 1), hsplit, hsplit2]
        simp only [List.map_cons, List.sum_cons, List.headD_cons, List.countP_cons, hctrl,
          hfc', List.countP_nil, if_true, if_false]
        have ht : triangular (s.countP isControl + 1)
            = triangular (s.countP isControl) + (s.countP isControl + 1) := rfl
        rw [ht]
        simp
        ring
      · have hctrl' : isControl n = false := by simpa using hctrl
        have h1 : (cogStep (0, lvl) n).1 = 0 := by simp [cogStep, hfc', hctrl']
        have h2 : (cogStep (0, lvl) n).2 = lvl := by simp [cogStep, hfc', hctrl']
        rw [h1, h2, ih lvl, hsplit, hsplit2]
        simp [List.countP_cons, hctrl', hfc']

/-- Updating the value at one key commutes with key lookup at that key. -/
theorem findKey_update (ns : List (String × NodeAttrs)) (id : String) (a : NodeAttrs) :
    (ns.map (fun p => if p.1 = id then (p.1, p.2.updateWith a) else p)).find? (fun p => p.1 = id)
      = (ns.find? (fun p => p.1 = id)).map (fun p => (p.1, p.2.updateWith a)) := by
  induction ns with
  | nil => rfl
  | cons p ps ih =>
    by_cases hp : p.1 = id
    · simp [hp, List.find?_cons]
    · simp only [List.map_cons, if_neg hp]
      rw [List.find?_cons_of_neg _ (by simpa using hp), List.find?_cons_of_neg _ (by simpa using hp), ih]

/-- Updating the value at one key leaves lookups at other keys unchanged. -/
theorem findKey_update_other (ns : List (String × NodeAttrs)) (id id' : String)
    (a : NodeAttrs) (h : id' ≠ id) :
    (ns.map (fun p => if p.1 = id then (p.1, p.2.updateWith a) else p)).find? (fun p => p.1 = id')
      = ns.find? (fun p => p.1 = id') := by
  induction ns with
  | nil => rfl
  | cons p ps ih =>
    by_cases hp : p.1 = id
    · have hp' : ¬ p.1 = id' := by rw [hp]; exact fun he => h he.symm
      simp only [List.map_cons, if_pos hp]
      rw [List.find?_cons_of_neg _ (by simpa using hp'),
        List.find?_cons_of_neg _ (by simpa using hp'), ih]
    · simp only [List.map_cons, if_neg hp]
      by_cases hq : p.1 = id'
      · rw [List.find?_cons_of_pos _ (by simpa using hq), List.find?_cons_of_pos _ (by simpa using hq)]
      · rw [List.find?_cons_of_neg _ (by simpa using hq), List.find?_cons_of_neg _ (by simpa using hq), ih]

/-- Key list of a value update. -/
theorem keys_update (ns : List (String × NodeAttrs)) (id : String) (a : NodeAttrs) :
    (ns.map (fun p => if p.1 = id then (p.1, p.2.updateWith a) else p)).map Prod.fst
      = ns.map Prod.fst := by
  induction ns with
  | nil => rfl
  | cons p ps ih =>
    by_cases hp : p.1 = id <;> simp [hp, ih]

/-- Presence of a node id is membership in the key list. -/
theorem hasNode_iff_mem_keys (g : DiGraph) (id : String) :
    g.hasNode id = true ↔ id ∈ g.nodes.map Prod.fst := by
  simp only [DiGraph.hasNode, List.any_eq_true, List.mem_map]
  constructor
  · rintro ⟨p, hp, he⟩
    exact ⟨p, hp, by simpa using he⟩
  · rintro ⟨p, hp, he⟩
    exact ⟨p, hp, by simpa using he⟩

/-- Effect of `add_node` on the lookup of the inserted id. -/
theorem attrOf_add_node_self (g : DiGraph) (id : String) (a : NodeAttrs) :
    (g.add_node id a).attrOf id
      = some (((g.attrOf id).getD NodeAttrs.emptyAttrs).updateWith a) := by
  rw [DiGraph.add_node]
  by_cases h : g.hasNode id
  · rw [if_pos h]
    simp only [DiGraph.attrOf]
    rw [findKey_update]
    cases hf : g.nodes.find? (fun p => p.1 = id) with
    | none =>
      exfalso
      rw [List.find?_eq_none] at hf
      simp only [DiGraph.hasNode, List.any_eq_true] at h
      obtain ⟨p, hp, he⟩ := h
      exact hf p hp he
    | some p => simp
  · rw [if_neg h]
    simp only [DiGraph.attrOf]
    rw [List.find?_append]
    have hnone : g.nodes.find? (fun p => p.1 = id) = none := by
      rw [List.find?_eq_none]
      intro p hp he
      exact h (by simp only [DiGraph.hasNode, List.any_eq_true]; exact ⟨p, hp, he⟩)
    rw [hnone]
    simp [hnone]

/-- Effect of `add_node` on lookups of other ids. -/
theorem attrOf_add_node_other (g : DiGraph) (id : String) (a : NodeAttrs) (id' : String)
    (h : id' ≠ id) :
    (g.add_node id a).attrOf id' = g.attrOf id' := by
  rw [DiGraph.add_node]
  by_cases hn : g.hasNode id
  · rw [if_pos hn]
    simp only [DiGraph.attrOf]
    rw [findKey_update_other _ _ _ _ h]

  · rw [if_neg hn]
    simp only [DiGraph.attrOf]
    rw [List.find?_append]
    have : [((id : String), NodeAttrs.emptyAttrs.updateWith a)].find? (fun p => p.1 = id') = none := by
      rw [List.find?_eq_none]
      intro p hp he
      simp only [List.mem_singleton] at hp
      subst hp
      simp only [decide_eq_true_eq] at he
      exact h he.symm
    rw [this]
    cases g.nodes.find? (fun p => p.1 = id') <;> simp

/-- `ensureNode` keeps every lookup that already succeeds. -/
theorem attrOf_ensureNode_of_isSome (g : DiGraph) (id x : String)
    (h : (g.attrOf x).isSome) : (g.ensureNode id).attrOf x = g.attrOf x := by
  rw [DiGraph.ensureNode]
  by_cases hn : g.hasNode id
  · rw [if_pos hn]
  · rw [if_neg hn]
    simp only [DiGraph.attrOf]
    rw [List.find?_append]
    cases hf : g.nodes.find? (fun p => p.1 = x) with
    | none => simp [DiGraph.attrOf, hf] at h
    | some p => simp

/-- `add_edge` never changes the stored attributes of a node that exists. -/
theorem attrOf_add_edge_of_isSome (g : DiGraph) (u v t x : String)
    (h : (g.attrOf x).isSome) : (g.add_edge u v t).attrOf x = g.attrOf x := by
  rw [DiGraph.add_edge]
  have h1 : ((g.ensureNode u).ensureNode v).attrOf x = g.attrOf x := by
    rw [attrOf_ensureNode_of_isSome _ _ _ ?_, attrOf_ensureNode_of_isSome _ _ _ h]
    rw [attrOf_ensureNode_of_isSome _ _ _ h]
    exact h
  split <;> simpa [DiGraph.attrOf] using h1

/-- `add_node` does not touch the edge list. -/
theorem edges_add_node (g : DiGraph) (id : String) (a : NodeAttrs) :
    (g.add_node id a).edges = g.edges := by
  rw [DiGraph.add_node]
  split <;> rfl

/-- `ensureNode` does not touch the edge list. -/
theorem edges_ensureNode (g : DiGraph) (id : String) :
    (g.ensureNode id).edges = g.edges := by
  rw [DiGraph.ensureNode]
  split <;> rfl

/-- `add_node` does not change edge lookups. -/
theorem edgeTypeOf_add_node (g : DiGraph) (id : String) (a : NodeAttrs) (u v : String) :
    (g.add_node id a).edgeTypeOf u v = g.edgeTypeOf u v := by
  simp [DiGraph.edgeTypeOf, edges_add_node]

/-- Replacing the matching edge entries yields the new entry on key lookup. -/
theorem findEdge_update (es : List (String × String × String)) (u v t : String)
    (h : es.any (fun e => e.1 = u ∧ e.2.1 = v) = true) :
    (es.map (fun e => if e.1 = u ∧ e.2.1 = v then (u, v, t) else e)).find?
        (fun e => e.1 = u ∧ e.2.1 = v) = some (u, v, t) := by
  induction es with
  | nil => simp at h
  | cons e es ih =>
    by_cases he : e.1 = u ∧ e.2.1 = v
    · simp only [List.map_cons, if_pos he]
      rw [List.find?_cons_of_pos]
      simp
    · simp only [List.map_cons, if_neg he]
      rw [List.find?_cons_of_neg _ (by simpa using he)]
      apply ih
      simp only [List.any_cons, Bool.or_eq_true] at h
      rcases h with h | h
      · exact absurd (by simpa using h) he
      · exact h

/-- Replacing the matching edge entries leaves other key lookups unchanged. -/
theorem findEdge_update_other (es : List (String × String × String)) (u v t u' v' : String)
    (h : ¬(u' = u ∧ v' = v)) :
    (es.map (fun e => if e.1 = u ∧ e.2.1 = v then (u, v, t) else e)).find?
        (fun e => e.1 = u' ∧ e.2.1 = v')
      = es.find? (fun e => e.1 = u' ∧ e.2.1 = v') := by
  induction es with
  | nil => rfl
  | cons e es ih =>
    by_cases he : e.1 = u ∧ e.2.1 = v
    · have hne : ¬(((u : String), v, t).1 = u' ∧ ((u : String), v, t).2.1 = v') := by
        simp only
        intro hc
        exact h ⟨hc.1.symm, hc.2.symm⟩
      have hne' : ¬(e.1 = u' ∧ e.2.1 = v') := by
        intro hc
        exact h ⟨by rw [← hc.1, he.1], by rw [← hc.2, he.2]⟩
      simp only [List.map_cons, if_pos he]
      rw [List.find?_cons_of_neg _ (by simpa using hne),
        List.find?_cons_of_neg _ (by simpa using hne'), ih]
    · simp only [List.map_cons, if_neg he]
      by_cases hq : e.1 = u' ∧ e.2.1 = v'
      · rw [List.find?_cons_of_pos _ (by simpa using hq), List.find?_cons_of_pos _ (by simpa using hq)]
      · rw [List.find?_cons_of_neg _ (by simpa using hq), List.find?_cons_of_neg _ (by simpa using hq), ih]

/-- `add_edge` stores the supplied type at the inserted key. -/
theorem edgeTypeOf_add_edge_self (g : DiGraph) (u v t : String) :
    (g.add_edge u v t).edgeTypeOf u v = some t := by
  rw [DiGraph.add_edge]
  have hedges : ((g.ensureNode u).ensureNode v).edges = g.edges := by
    rw [edges_ensureNode, edges_ensureNode]
  by_cases h : ((g.ensureNode u).ensureNode v).hasEdge u v
  · rw [if_pos h]
    simp only [DiGraph.edgeTypeOf]
    rw [findEdge_update]
    · rfl
    · simpa [DiGraph.hasEdge] using h
  · rw [if_neg h]
    simp only [DiGraph.edgeTypeOf]
    rw [List.find?_append]
    have hnone : ((g.ensureNode u).ensureNode v).edges.find? (fun e => e.1 = u ∧ e.2.1 = v) = none := by
      rw [List.find?_eq_none]
      intro e he hp
      exact h (by simp only [DiGraph.hasEdge, List.any_eq_true]; exact ⟨e, he, hp⟩)
    rw [hnone]
    simp

/-- `add_edge` leaves other edge keys unchanged. -/
theorem edgeTypeOf_add_edge_other (g : DiGraph) (u v t u' v' : String)
    (h : ¬(u' = u ∧ v' = v)) :
    (g.add_edge u v t).edgeTypeOf u' v' = g.edgeTypeOf u' v' := by
  rw [DiGraph.add_edge]
  have hedges : ((g.ensureNode u).ensureNode v).edges = g.edges := by
    rw [edges_ensureNode, edges_ensureNode]
  by_cases hh : ((g.ensureNode u).ensureNode v).hasEdge u v
  · rw [if_pos hh]
    simp only [DiGraph.edgeTypeOf]
    rw [findEdge_update_other _ _ _ _ _ _ h, hedges]
  · rw [if_neg hh]
    simp only [DiGraph.edgeTypeOf]
    rw [List.find?_append]
    have : [((u : String), v, t)].find? (fun e => e.1 = u' ∧ e.2.1 = v') = none := by
      rw [List.find?_eq_none]
      intro e he hp
      simp only [List.mem_singleton] at he
      subst he
      simp only [decide_eq_true_eq] at hp
      exact h ⟨hp.1.symm, hp.2.symm⟩
    rw [this, hedges]
    cases g.edges.find? (fun e => e.1 = u' ∧ e.2.1 = v') <;> simp

/-- A successful edge lookup certifies membership of the full edge triple. -/
theorem mem_edges_of_edgeTypeOf (g : DiGraph) (u v ty : String)
    (h : g.edgeTypeOf u v = some ty) : (u, v, ty) ∈ g.edges := by
  simp only [DiGraph.edgeTypeOf, Option.map_eq_some'] at h
  obtain ⟨e, he, hty⟩ := h
  have hmem := List.mem_of_find?_eq_some he
  have hp := List.find?_some he
  simp only [decide_eq_true_eq] at hp
  have : e = (u, v, ty) := by
    obtain ⟨e1, e2, e3⟩ := e
    simp only at hp hty
    simp [hp.1, hp.2, hty]
  rwa [this] at hmem

/-- A node lookup succeeds exactly when the id is present. -/
theorem attrOf_isSome_iff (g : DiGraph) (x : String) :
    (g.attrOf x).isSome = true ↔ g.hasNode x = true := by
  constructor
  · intro h
    cases hf : g.nodes.find? (fun p => p.1 = x) with
    | none => simp [DiGraph.attrOf, hf] at h
    | some p =>
      have hm := List.mem_of_find?_eq_some hf
      have hp := List.find?_some hf
      simp only [DiGraph.hasNode, List.any_eq_true]
      exact ⟨p, hm, hp⟩
  · intro h
    simp only [DiGraph.hasNode, List.any_eq_true] at h
    obtain ⟨p, hp, he⟩ := h
    cases hf : g.nodes.find? (fun p => p.1 = x) with
    | none =>
      rw [List.find?_eq_none] at hf
      exact absurd he (hf p hp)
    | some q => simp [DiGraph.attrOf, hf]

/-- `add_node` preserves uniqueness of node ids. -/
theorem nodupKeys_add_node (g : DiGraph) (id : String) (a : NodeAttrs)
    (h : (g.nodes.map Prod.fst).Nodup) :
    ((g.add_node id a).nodes.map Prod.fst).Nodup := by
  rw [DiGraph.add_node]
  by_cases hn : g.hasNode id
  · rw [if_pos hn, keys_update]
    exact h
  · rw [if_neg hn]
    have hnot : id ∉ g.nodes.map Prod.fst := fun hc => hn ((hasNode_iff_mem_keys g id).mpr hc)
    simp [List.nodup_append, h, hnot]

/-- `ensureNode` preserves uniqueness of node ids. -/
theorem nodupKeys_ensureNode (g : DiGraph) (id : String)
    (h : (g.nodes.map Prod.fst).Nodup) :
    ((g.ensureNode id).nodes.map Prod.fst).Nodup := by
  rw [DiGraph.ensureNode]
  by_cases hn : g.hasNode id
  · rwa [if_pos hn]
  · rw [if_neg hn]
    have hnot : id ∉ g.nodes.map Prod.fst := fun hc => hn ((hasNode_iff_mem_keys g id).mpr hc)
    simp [List.nodup_append, h, hnot]

/-- The node list of `add_edge` is that of the two `ensureNode` calls. -/
theorem nodes_add_edge (g : DiGraph) (u v t : String) :
    (g.add_edge u v t).nodes = ((g.ensureNode u).ensureNode v).nodes := by
  rw [DiGraph.add_edge]
  split <;> rfl

/-- `add_edge` preserves uniqueness of node ids. -/
theorem nodupKeys_add_edge (g : DiGraph) (u v t : String)
    (h : (g.nodes.map Prod.fst).Nodup) :
    ((g.add_edge u v t).nodes.map Prod.fst).Nodup := by
  rw [nodes_add_edge]
  exact nodupKeys_ensureNode _ _ (nodupKeys_ensureNode _ _ h)

/-- Presence of a node survives `add_node`. -/
theorem hasNode_mono_add_node (g : DiGraph) (id : String) (a : NodeAttrs) (x : String)
    (h : g.hasNode x = true) : (g.add_node id a).hasNode x = true := by
  rw [hasNode_iff_mem_keys] at h ⊢
  rw [DiGraph.add_node]
  by_cases hn : g.hasNode id
  · rw [if_pos hn, keys_update]
    exact h
  · rw [if_neg hn]
    simp only [List.map_append, List.mem_append]
    exact Or.inl h

/-- Presence of a node survives `ensureNode`. -/
theorem hasNode_mono_ensureNode (g : DiGraph) (id : String) (x : String)
    (h : g.hasNode x = true) : (g.ensureNode id).hasNode x = true := by
  rw [hasNode_iff_mem_keys] at h ⊢
  rw [DiGraph.ensureNode]
  by_cases hn : g.hasNode id
  · rwa [if_pos hn]
  · rw [if_neg hn]
    simp only [List.map_append, List.mem_append]
    exact Or.inl h

/-- Presence of a node survives `add_edge`. -/
theorem hasNode_mono_add_edge (g : DiGraph) (u v t : String) (x : String)
    (h : g.hasNode x = true) : (g.add_edge u v t).hasNode x = true := by
  have : (g.add_edge u v t).hasNode x = ((g.ensureNode u).ensureNode v).hasNode x := by
    simp [DiGraph.hasNode, nodes_add_edge]
  rw [this]
  exact hasNode_mono_ensureNode _ _ _ (hasNode_mono_ensureNode _ _ _ h)

/-- `add_node` makes its id present. -/
theorem hasNode_add_node_self (g : DiGraph) (id : String) (a : NodeAttrs) :
    (g.add_node id a).hasNode id = true := by
  rw [← attrOf_isSome_iff, attrOf_add_node_self]
  rfl

/-- The empty graph has no attributes stored. -/
theorem attrOf_emptyGraph (x : String) : DiGraph.emptyGraph.attrOf x = none := rfl

/-- Step 1 leaves ids disjoint from the file paths untouched. -/
theorem addFileNodes_attr_of_ne (files : List FileData) :
    ∀ (g : DiGraph) (x : String), (∀ fd ∈ files, fd.path ≠ x) →
    (addFileNodes g files).attrOf x = g.attrOf x := by
  induction files with
  | nil => intro g x _; rfl
  | cons fd fds ih =>
    intro g x h
    rw [addFileNodes, List.foldl_cons]
    have hstep : ∀ (g' : DiGraph),
        ((if fd.has_db_connection then
            g'.add_node fd.path ⟨some "file", some true, some fd.db_types⟩
          else g'.add_node fd.path ⟨some "file", none, none⟩)).attrOf x = g'.attrOf x := by
      intro g'
      have hne : x ≠ fd.path := fun he => h fd (List.mem_cons_self fd fds) he.symm
      by_cases hdb : fd.has_db_connection <;>
        simp [hdb, attrOf_add_node_other _ _ _ _ hne]
    have := ih
      (if fd.has_db_connection then
        g.add_node fd.path ⟨some "file", some true, some fd.db_types⟩
      else g.add_node fd.path ⟨some "file", none, none⟩) x
      (fun fd' hfd' => h fd' (List.mem_cons_of_mem _ hfd'))
    rw [addFileNodes] at this
    rw [this, hstep]

/-- Step 1 preserves uniqueness of node ids. -/
theorem addFileNodes_nodup (files : List FileData) :
    ∀ (g : DiGraph), (g.nodes.map Prod.fst).Nodup →
    ((addFileNodes g files).nodes.map Prod.fst).Nodup := by
  induction files with
  | nil => intro g h; exact h
  | cons fd fds ih =>
    intro g h
    rw [addFileNodes, List.foldl_cons]
    apply ih
    by_cases hdb : fd.has_db_connection <;> simp [hdb, nodupKeys_add_node _ _ _ h]

/-- Step 2 keeps a stored database attribute dictionary intact. -/
theorem addDbNodes_attr_pres (kinds : List String) :
    ∀ (g : DiGraph) (K : String), g.attrOf ("DB:" ++ K) = some dbNodeAttrs →
    (addDbNodes g kinds).attrOf ("DB:" ++ K) = some dbNodeAttrs := by
  induction kinds with
  | nil => intro g K h; exact h
  | cons k ks ih =>
    intro g K h
    rw [addDbNodes, List.foldl_cons]
    show (addDbNodes _ ks).attrOf _ = _
    apply ih
    by_cases hk : k = K
    · subst hk
      rw [attrOf_add_node_self, h]
      rfl
    · have hne : ("DB:" ++ K) ≠ ("DB:" ++ k) := fun he => hk (db_tag_left_cancel he).symm
      rw [attrOf_add_node_other _ _ _ _ hne]
      exact h

/-- Step 2 installs the database attribute dictionary for every detected kind. -/
theorem addDbNodes_attr_est (kinds : List String) :
    ∀ (g : DiGraph) (K : String), g.attrOf ("DB:" ++ K) = none → K ∈ kinds →
    (addDbNodes g kinds).attrOf ("DB:" ++ K) = some dbNodeAttrs := by
  induction kinds with
  | nil => intro g K _ h; exact absurd h (List.not_mem_nil K)
  | cons k ks ih =>
    intro g K h hK
    rw [addDbNodes, List.foldl_cons]
    by_cases hk : k = K
    · subst hk
      have hstep : (g.add_node ("DB:" ++ k) ⟨some "database", none, none⟩).attrOf ("DB:" ++ k)
          = some dbNodeAttrs := by
        rw [attrOf_add_node_self, h]
        rfl
      exact addDbNodes_attr_pres ks _ _ hstep
    · have hK' : K ∈ ks := by
        rcases List.mem_cons.mp hK with he | hm
        · exact absurd he.symm hk
        · exact hm
      have hstep : (g.add_node ("DB:" ++ k) ⟨some "database", none, none⟩).attrOf ("DB:" ++ K)
          = none := by
        have hne : ("DB:" ++ K) ≠ ("DB:" ++ k) := fun he => hk (db_tag_left_cancel he).symm
        rw [attrOf_add_node_other _ _ _ _ hne]
        exact h
      exact ih _ _ hstep hK'

/-- Step 2 preserves uniqueness of node ids. -/
theorem addDbNodes_nodup (kinds : List String) :
    ∀ (g : DiGraph), (g.nodes.map Prod.fst).Nodup →
    ((addDbNodes g kinds).nodes.map Prod.fst).Nodup := by
  induction kinds with
  | nil => intro g h; exact h
  | cons k ks ih =>
    intro g h
    rw [addDbNodes, List.foldl_cons]
    exact ih _ (nodupKeys_add_node _ _ _ h)

/-- One uses/used-by insertion step keeps an established `uses` / `used_by`
edge pair whose file side is not a database id. -/
theorem dbEdgeStep_pres (g : DiGraph) (p k f K : String)
    (hp : ∀ s, p ≠ "DB:" ++ s) (hf : ∀ s, f ≠ "DB:" ++ s)
    (hu : g.edgeTypeOf f ("DB:" ++ K) = some "uses")
    (hb : g.edgeTypeOf ("DB:" ++ K) f = some "used_by") :
    ((g.add_edge p ("DB:" ++ k) "uses").add_edge ("DB:" ++ k) p "used_by").edgeTypeOf
        f ("DB:" ++ K) = some "uses"
    ∧ ((g.add_edge p ("DB:" ++ k) "uses").add_edge ("DB:" ++ k) p "used_by").edgeTypeOf
        ("DB:" ++ K) f = some "used_by" := by
  have h1u : (g.add_edge p ("DB:" ++ k) "uses").edgeTypeOf f ("DB:" ++ K) = some "uses" := by
    by_cases he : f = p ∧ ("DB:" ++ K) = ("DB:" ++ k)
    · rw [he.1, he.2]
      exact edgeTypeOf_add_edge_self _ _ _ _
    · rw [edgeTypeOf_add_edge_other _ _ _ _ _ _ he]
      exact hu
  have h1b : (g.add_edge p ("DB:" ++ k) "uses").edgeTypeOf ("DB:" ++ K) f = some "used_by" := by
    have hne : ¬(("DB:" ++ K) = p ∧ f = ("DB:" ++ k)) := fun hc => hp K hc.1.symm
    rw [edgeTypeOf_add_edge_other _ _ _ _ _ _ hne]
    exact hb
  constructor
  · have hne : ¬(f = ("DB:" ++ k) ∧ ("DB:" ++ K) = p) := fun hc => hf k hc.1
    rw [edgeTypeOf_add_edge_other _ _ _ _ _ _ hne]
    exact h1u
  · by_cases he : ("DB:" ++ K) = ("DB:" ++ k) ∧ f = p
    · rw [he.1, he.2]
      exact edgeTypeOf_add_edge_self _ _ _ _
    · rw [edgeTypeOf_add_edge_other _ _ _ _ _ _ he]
      exact h1b

/-- The inner kind loop of step 3 keeps an established edge pair. -/
theorem dbEdgeInner_pres (ks : List String) :
    ∀ (g : DiGraph) (p f K : String), (∀ s, p ≠ "DB:" ++ s) → (∀ s, f ≠ "DB:" ++ s) →
    g.edgeTypeOf f ("DB:" ++ K) = some "uses" →
    g.edgeTypeOf ("DB:" ++ K) f = some "used_by" →
    (ks.foldl (fun g k => (g.add_edge p ("DB:" ++ k) "uses").add_edge ("DB:" ++ k) p "used_by") g).edgeTypeOf
        f ("DB:" ++ K) = some "uses"
    ∧ (ks.foldl (fun g k => (g.add_edge p ("DB:" ++ k) "uses").add_edge ("DB:" ++ k) p "used_by") g).edgeTypeOf
        ("DB:" ++ K) f = some "used_by" := by
  induction ks with
  | nil => intro g p f K _ _ hu hb; exact ⟨hu, hb⟩
  | cons k ks ih =>
    intro g p f K hp hf hu hb
    rw [List.foldl_cons]
    obtain ⟨hu', hb'⟩ := dbEdgeStep_pres g p k f K hp hf hu hb
    exact ih _ p f K hp hf hu' hb'

/-- The inner kind loop of step 3 establishes the edge pair for every kind in
the list. -/
theorem dbEdgeInner_est (ks : List String) :
    ∀ (g : DiGraph) (p K : String), K ∈ ks → (∀ s, p ≠ "DB:" ++ s) →
    (ks.foldl (fun g k => (g.add_edge p ("DB:" ++ k) "uses").add_edge ("DB:" ++ k) p "used_by") g).edgeTypeOf
        p ("DB:" ++ K) = some "uses"
    ∧ (ks.foldl (fun g k => (g.add_edge p ("DB:" ++ k) "uses").add_edge ("DB:" ++ k) p "used_by") g).edgeTypeOf
        ("DB:" ++ K) p = some "used_by" := by
  induction ks with
  | nil => intro g p K hK _; exact absurd hK (List.not_mem_nil K)
  | cons k ks ih =>
    intro g p K hK hp
    rw [List.foldl_cons]
    by_cases hk : k = K
    · subst hk
      have hu : ((g.add_edge p ("DB:" ++ k) "uses").add_edge ("DB:" ++ k) p "used_by").edgeTypeOf
          p ("DB:" ++ k) = some "uses" := by
        have hne : ¬(p = ("DB:" ++ k) ∧ ("DB:" ++ k) = p) := fun hc => hp k hc.1
        rw [edgeTypeOf_add_edge_other _ _ _ _ _ _ hne]
        exact edgeTypeOf_add_edge_self _ _ _ _
      have hb : ((g.add_edge p ("DB:" ++ k) "uses").add_edge ("DB:" ++ k) p "used_by").edgeTypeOf
          ("DB:" ++ k) p = some "used_by" :=
        edgeTypeOf_add_edge_self _ _ _ _
      exact dbEdgeInner_pres ks _ p p k hp hp hu hb
    · have hK' : K ∈ ks := by
        rcases List.mem_cons.mp hK with he | hm
        · exact absurd he.symm hk
        · exact hm
      exact ih _ p K hK' hp

/-- Step 3 keeps an established edge pair when no dict key is a database id. -/
theorem addDbEdges_pres (conns : List (String × List String)) :
    ∀ (g : DiGraph) (f K : String),
    (∀ pc ∈ conns, ∀ s, pc.1 ≠ "DB:" ++ s) → (∀ s, f ≠ "DB:" ++ s) →
    g.edgeTypeOf f ("DB:" ++ K) = some "uses" →
    g.edgeTypeOf ("DB:" ++ K) f = some "used_by" →
    (addDbEdges g conns).edgeTypeOf f ("DB:" ++ K) = some "uses"
    ∧ (addDbEdges g conns).edgeTypeOf ("DB:" ++ K) f = some "used_by" := by
  induction conns with
  | nil => intro g f K _ _ hu hb; exact ⟨hu, hb⟩
  | cons pc pcs ih =>
    intro g f K hconns hf hu hb
    rw [addDbEdges, List.foldl_cons]
    have hp : ∀ s, pc.1 ≠ "DB:" ++ s := hconns pc (List.mem_cons_self pc pcs)
    obtain ⟨hu', hb'⟩ := dbEdgeInner_pres pc.2 g pc.1 f K hp hf hu hb
    exact ih _ f K (fun pc' hpc' => hconns pc' (List.mem_cons_of_mem _ hpc')) hf hu' hb'

/-- Step 3 installs the `uses` / `used_by` edge pair for every entry of the
connections dict and every kind it lists. -/
theorem addDbEdges_est (conns : List (String × List String)) :
    ∀ (g : DiGraph) (f : String) (lf : List String) (K : String),
    (f, lf) ∈ conns → K ∈ lf →
    (∀ pc ∈ conns, ∀ s, pc.1 ≠ "DB:" ++ s) →
    (addDbEdges g conns).edgeTypeOf f ("DB:" ++ K) = some "uses"
    ∧ (addDbEdges g conns).edgeTypeOf ("DB:" ++ K) f = some "used_by" := by
  induction conns with
  | nil => intro g f lf K hmem _ _; exact absurd hmem (List.not_mem_nil _)
  | cons pc pcs ih =>
    intro g f lf K hmem hK hconns
    rw [addDbEdges, List.foldl_cons]
    rcases List.mem_cons.mp hmem with he | hm
    · subst he
      have hp : ∀ s, f ≠ "DB:" ++ s := by
        have := hconns (f, lf) (List.mem_cons_self _ _)
        simpa using this
      obtain ⟨hu, hb⟩ := dbEdgeInner_est lf g f K hK hp
      exact addDbEdges_pres pcs _ f K
        (fun pc' hpc' => hconns pc' (List.mem_cons_of_mem _ hpc')) hp hu hb
    · exact ih _ f lf K hm hK (fun pc' hpc' => hconns pc' (List.mem_cons_of_mem _ hpc'))

/-- Step 4 keeps an established edge whose key no import pair collides with. -/
theorem addImportEdges_pres (imps : List (String × String)) :
    ∀ (g : DiGraph) (u v ty : String),
    (∀ e ∈ imps, ¬(e.1 = u ∧ e.2 = v)) →
    g.edgeTypeOf u v = some ty →
    (addImportEdges g imps).edgeTypeOf u v = some ty := by
  induction imps with
  | nil => intro g u v ty _ h; exact h
  | cons e es ih =>
    intro g u v ty hdiff h
    rw [addImportEdges, List.foldl_cons]
    refine ih _ u v ty (fun e' he' => hdiff e' (List.mem_cons_of_mem _ he')) ?_
    have hne : ¬(u = e.1 ∧ v = e.2) := by
      intro hc
      exact hdiff e (List.mem_cons_self e es) ⟨hc.1.symm, hc.2.symm⟩
    rw [edgeTypeOf_add_edge_other _ _ _ _ _ _ hne]
    exact h

/-- The inner kind loop of step 3 never changes stored node attributes. -/
theorem dbEdgeInner_attr (ks : List String) :
    ∀ (g : DiGraph) (p x : String) (a : NodeAttrs), g.attrOf x = some a →
    (ks.foldl (fun g k => (g.add_edge p ("DB:" ++ k) "uses").add_edge ("DB:" ++ k) p "used_by") g).attrOf x
      = some a := by
  induction ks with
  | nil => intro g p x a h; exact h
  | cons k ks ih =>
    intro g p x a h
    rw [List.foldl_cons]
    apply ih
    rw [attrOf_add_edge_of_isSome, attrOf_add_edge_of_isSome]
    · exact h
    · rw [h]; rfl
    · rw [attrOf_add_edge_of_isSome _ _ _ _ _ (by rw [h]; rfl), h]
      rfl

/-- Step 3 never changes stored node attributes. -/
theorem addDbEdges_attr (conns : List (String × List String)) :
    ∀ (g : DiGraph) (x : String) (a : NodeAttrs), g.attrOf x = some a →
    (addDbEdges g conns).attrOf x = some a := by
  induction conns with
  | nil => intro g x a h; exact h
  | cons pc pcs ih =>
    intro g x a h
    rw [addDbEdges, List.foldl_cons]
    exact ih _ x a (dbEdgeInner_attr pc.2 g pc.1 x a h)

/-- Step 4 never changes stored node attributes. -/
theorem addImportEdges_attr (imps : List (String × String)) :
    ∀ (g : DiGraph) (x : String) (a : NodeAttrs), g.attrOf x = some a →
    (addImportEdges g imps).attrOf x = some a := by
  induction imps with
  | nil => intro g x a h; exact h
  | cons e es ih =>
    intro g x a h
    rw [addImportEdges, List.foldl_cons]
    apply ih
    rw [attrOf_add_edge_of_isSome _ _ _ _ _ (by rw [h]; rfl)]
    exact h

/-- The inner kind loop of step 3 preserves uniqueness of node ids. -/
theorem dbEdgeInner_nodup (ks : List String) :
    ∀ (g : DiGraph) (p : String), (g.nodes.map Prod.fst).Nodup →
    ((ks.foldl (fun g k => (g.add_edge p ("DB:" ++ k) "uses").add_edge ("DB:" ++ k) p "used_by") g).nodes.map Prod.fst).Nodup := by
  induction ks with
  | nil => intro g p h; exact h
  | cons k ks ih =>
    intro g p h
    rw [List.foldl_cons]
    exact ih _ p (nodupKeys_add_edge _ _ _ _ (nodupKeys_add_edge _ _ _ _ h))

/-- Step 3 preserves uniqueness of node ids. -/
theorem addDbEdges_nodup (conns : List (String × List String)) :
    ∀ (g : DiGraph), (g.nodes.map Prod.fst).Nodup →
    ((addDbEdges g conns).nodes.map Prod.fst).Nodup := by
  induction conns with
  | nil => intro g h; exact h
  | cons pc pcs ih =>
    intro g h
    rw [addDbEdges, List.foldl_cons]
    exact ih _ (dbEdgeInner_nodup pc.2 g pc.1 h)

/-- Step 4 preserves uniqueness of node ids. -/
theorem addImportEdges_nodup (imps : List (String × String)) :
    ∀ (g : DiGraph), (g.nodes.map Prod.fst).Nodup →
    ((addImportEdges g imps).nodes.map Prod.fst).Nodup := by
  induction imps with
  | nil => intro g h; exact h
  | cons e es ih =>
    intro g h
    rw [addImportEdges, List.foldl_cons]
    exact ih _ (nodupKeys_add_edge _ _ _ _ h)

/-- An emitted output node carries the id of its graph node. -/
theorem outNodeEntry_id (p : String × NodeAttrs) (r : OutNode)
    (h : outNodeEntry p = some r) : r.id = p.1 := by
  unfold outNodeEntry at h
  split at h
  · cases h
    rfl
  · cases h
    rfl
  · cases h

/-- Ids absent from the node list never appear among the output nodes. -/
theorem outNodes_count_zero (ns : List (String × NodeAttrs)) (x : String)
    (h : x ∉ ns.map Prod.fst) :
    ((ns.filterMap outNodeEntry).filter (fun n => n.id = x)).length = 0 := by
  induction ns with
  | nil => rfl
  | cons p ps ih =>
    have hx : p.1 ≠ x := by
      intro he
      exact h (by simp [← he])
    have hps : x ∉ ps.map Prod.fst := fun hc => h (by simp [hc])
    cases he : outNodeEntry p with
    | none => simpa [List.filterMap_cons, he] using ih hps
    | some r =>
      have hid := outNodeEntry_id p r he
      simp only [List.filterMap_cons, he, List.filter_cons]
      rw [if_neg (by simp [hid, hx])]
      exact ih hps

/-- With unique ids, a node stored with the database attributes produces
exactly one output entry with its id. -/
theorem outNodes_count_one (ns : List (String × NodeAttrs)) (x : String)
    (hnd : (ns.map Prod.fst).Nodup) (hmem : (x, dbNodeAttrs) ∈ ns) :
    ((ns.filterMap outNodeEntry).filter (fun n => n.id = x)).length = 1 := by
  induction ns with
  | nil => exact absurd hmem (List.not_mem_nil _)
  | cons p ps ih =>
    have hnd' : (ps.map Prod.fst).Nodup := (List.nodup_cons.mp (by simpa using hnd)).2
    have hhead : p.1 ∉ ps.map Prod.fst := (List.nodup_cons.mp (by simpa using hnd)).1
    rcases List.mem_cons.mp hmem with he | hm
    · subst he
      have hentry : outNodeEntry ((x : String), dbNodeAttrs)
          = some ⟨x, String.replace x "DB:" "", "database", false, []⟩ := rfl
      simp only [List.filterMap_cons, hentry, List.filter_cons]
      rw [if_pos (by simp)]
      simp only [List.length_cons]
      rw [outNodes_count_zero ps x (by simpa using hhead)]
    · have hx : p.1 ≠ x := by
        intro he
        apply hhead
        rw [he]
        exact List.mem_map.mpr ⟨(x, dbNodeAttrs), hm, rfl⟩
      cases he : outNodeEntry p with
      | none => simpa [List.filterMap_cons, he] using ih hnd' hm
      | some r =>
        have hid := outNodeEntry_id p r he
        simp only [List.filterMap_cons, he, List.filter_cons]
        rw [if_neg (by simp [hid, hx])]
        exact ih hnd' hm

/-- Membership in the flattened kind lists of the connections dict. -/
theorem mem_foldr_append (conns : List (String × List String)) (p : String)
    (l : List String) (x : String) (hmem : (p, l) ∈ conns) (hx : x ∈ l) :
    x ∈ conns.foldr (fun pc acc => pc.2 ++ acc) [] := by
  induction conns with
  | nil => exact absurd hmem (List.not_mem_nil _)
  | cons pc pcs ih =>
    rw [List.foldr_cons]
    rcases List.mem_cons.mp hmem with he | hm
    · subst he
      exact List.mem_append.mpr (Or.inl hx)
    · exact List.mem_append.mpr (Or.inr (ih hm))

/-- A successful node lookup certifies membership of the id-attribute pair. -/
theorem mem_nodes_of_attrOf (g : DiGraph) (x : String) (a : NodeAttrs)
    (h : g.attrOf x = some a) : (x, a) ∈ g.nodes := by
  simp only [DiGraph.attrOf, Option.map_eq_some'] at h
  obtain ⟨p, hp, ha⟩ := h
  have hmem := List.mem_of_find?_eq_some hp
  have hpred := List.find?_some hp
  simp only [decide_eq_true_eq] at hpred
  have : p = (x, a) := by
    obtain ⟨p1, p2⟩ := p
    simp only at hpred ha
    simp [hpred, ha]
  rwa [this] at hmem

/-- CLAIM C3: when two analyzed files both hit the same database kind, the
assembled data-flow graph contains exactly one database node for that kind
(re-inserting an existing id merges instead of duplicating), and each of the
two files has both a `uses` edge to the database node and a `used_by` edge
back from it.  The hypotheses state the namespaced id scheme: no file path,
connections-dict key, or import-edge endpoint is itself a `DB:`-tagged id. -/
theorem db_node_unique_and_bidirectional_edges
    (files : List FileData) (conns : List (String × List String))
    (imps : List (String × String)) (f1 f2 K : String) (l1 l2 : List String)
    (h1 : (f1, l1) ∈ conns) (hK1 : K ∈ l1) (h2 : (f2, l2) ∈ conns) (hK2 : K ∈ l2)
    (hfiles : ∀ fd ∈ files, ∀ s, fd.path ≠ "DB:" ++ s)
    (hconns : ∀ pc ∈ conns, ∀ s, pc.1 ≠ "DB:" ++ s)
    (himps : ∀ e ∈ imps, (∀ s, e.1 ≠ "DB:" ++ s) ∧ (∀ s, e.2 ≠ "DB:" ++ s)) :
    (((analyze_data_flow files conns imps).graph_nodes.filter
        (fun n => n.id = "DB:" ++ K)).length = 1)
    ∧ (⟨f1, "DB:" ++ K, "uses"⟩ : OutEdge) ∈ (analyze_data_flow files conns imps).graph_edges
    ∧ (⟨"DB:" ++ K, f1, "used_by"⟩ : OutEdge) ∈ (analyze_data_flow files conns imps).graph_edges
    ∧ (⟨f2, "DB:" ++ K, "uses"⟩ : OutEdge) ∈ (analyze_data_flow files conns imps).graph_edges
    ∧ (⟨"DB:" ++ K, f2, "used_by"⟩ : OutEdge) ∈ (analyze_data_flow files conns imps).graph_edges := by
  have hKkinds : K ∈ pyDedup (conns.foldr (fun pc acc => pc.2 ++ acc) []) :=
    (mem_pyDedup _ _).mpr (mem_foldr_append conns f1 l1 K h1 hK1)
  have ha0 : (addFileNodes DiGraph.emptyGraph files).attrOf ("DB:" ++ K) = none := by
    rw [addFileNodes_attr_of_ne files _ _ (fun fd hfd => hfiles fd hfd K)]
    exact attrOf_emptyGraph _
  have ha1 := addDbNodes_attr_est _ _ K ha0 hKkinds
  have ha2 := addDbEdges_attr conns _ _ _ ha1
  have ha3 := addImportEdges_attr imps _ _ _ ha2
  have hn0 : ((DiGraph.emptyGraph.nodes).map Prod.fst).Nodup := by
    simp [DiGraph.emptyGraph]
  have hnA := addFileNodes_nodup files DiGraph.emptyGraph hn0
  have hnB := addDbNodes_nodup (pyDedup (conns.foldr (fun pc acc => pc.2 ++ acc) [])) _ hnA
  have hnC := addDbEdges_nodup conns _ hnB
  have hn3 := addImportEdges_nodup imps _ hnC
  have hmemnode := mem_nodes_of_attrOf _ _ _ ha3
  have hcount := outNodes_count_one _ _ hn3 hmemnode
  have hedges1 := addDbEdges_est conns
    (addDbNodes (addFileNodes DiGraph.emptyGraph files)
      (pyDedup (conns.foldr (fun pc acc => pc.2 ++ acc) []))) f1 l1 K h1 hK1 hconns
  have hedges2 := addDbEdges_est conns
    (addDbNodes (addFileNodes DiGraph.emptyGraph files)
      (pyDedup (conns.foldr (fun pc acc => pc.2 ++ acc) []))) f2 l2 K h2 hK2 hconns
  have himp1u := addImportEdges_pres imps _ f1 ("DB:" ++ K) "uses"
    (fun e he hc => (himps e he).2 K hc.2) hedges1.1
  have himp1b := addImportEdges_pres imps _ ("DB:" ++ K) f1 "used_by"
    (fun e he hc => (himps e he).1 K hc.1) hedges1.2
  have himp2u := addImportEdges_pres imps _ f2 ("DB:" ++ K) "uses"
    (fun e he hc => (himps e he).2 K hc.2) hedges2.1
  have himp2b := addImportEdges_pres imps _ ("DB:" ++ K) f2 "used_by"
    (fun e he hc => (himps e he).1 K hc.1) hedges2.2
  refine ⟨hcount, ?_, ?_, ?_, ?_⟩
  · exact List.mem_map.mpr ⟨_, mem_edges_of_edgeTypeOf _ _ _ _ himp1u, rfl⟩
  · exact List.mem_map.mpr ⟨_, mem_edges_of_edgeTypeOf _ _ _ _ himp1b, rfl⟩
  · exact List.mem_map.mpr ⟨_, mem_edges_of_edgeTypeOf _ _ _ _ himp2u, rfl⟩
  · exact List.mem_map.mpr ⟨_, mem_edges_of_edgeTypeOf _ _ _ _ himp2b, rfl⟩

/-- A property preserved by every fold step holds after the fold. -/
theorem foldl_pres {α β : Type} (P : α → Prop) (F : α → β → α) (l : List β)
    (hpres : ∀ g b, P g → P (F g b)) : ∀ g, P g → P (l.foldl F g) := by
  induction l with
  | nil => intro g h; exact h
  | cons b bs ih =>
    intro g h
    rw [List.foldl_cons]
    exact ih _ (hpres g b h)

/-- A property established by one list element and preserved by every step
holds after the fold. -/
theorem foldl_est_pres {α β : Type} (P : α → Prop) (F : α → β → α) (l : List β) (s : β)
    (hs : s ∈ l) (hest : ∀ g, P (F g s)) (hpres : ∀ g b, P g → P (F g b)) :
    ∀ g, P (l.foldl F g) := by
  induction l with
  | nil => exact absurd hs (List.not_mem_nil s)
  | cons b bs ih =>
    intro g
    rw [List.foldl_cons]
    rcases List.mem_cons.mp hs with he | hm
    · subst he
      exact foldl_pres P F bs hpres _ (hest g)
    · exact ih hm _

/-- WITNESS for C3: two concrete files both hitting MySQL, with an import edge
between them, produce one `DB:MySQL` node and the four expected edges. -/
theorem db_node_unique_and_bidirectional_edges_witness :
    ((("a.py", ["MySQL"]) ∈ ([("a.py", ["MySQL"]), ("b.py", ["MySQL"])] : List (String × List String)))
      ∧ "MySQL" ∈ ["MySQL"]
      ∧ (("b.py", ["MySQL"]) ∈ ([("a.py", ["MySQL"]), ("b.py", ["MySQL"])] : List (String × List String)))
      ∧ (∀ fd ∈ ([⟨"a.py", true, ["MySQL"], []⟩, ⟨"b.py", true, ["MySQL"], []⟩] : List FileData),
          ∀ s, fd.path ≠ "DB:" ++ s))
    ∧ ((((analyze_data_flow
            [⟨"a.py", true, ["MySQL"], []⟩, ⟨"b.py", true, ["MySQL"], []⟩]
            [("a.py", ["MySQL"]), ("b.py", ["MySQL"])]
            [("a.py", "b.py")]).graph_nodes.filter
          (fun n => n.id = "DB:" ++ "MySQL")).length = 1)
        ∧ (⟨"a.py", "DB:" ++ "MySQL", "uses"⟩ : OutEdge) ∈ (analyze_data_flow
            [⟨"a.py", true, ["MySQL"], []⟩, ⟨"b.py", true, ["MySQL"], []⟩]
            [("a.py", ["MySQL"]), ("b.py", ["MySQL"])]
            [("a.py", "b.py")]).graph_edges
        ∧ (⟨"DB:" ++ "MySQL", "a.py", "used_by"⟩ : OutEdge) ∈ (analyze_data_flow
            [⟨"a.py", true, ["MySQL"], []⟩, ⟨"b.py", true, ["MySQL"], []⟩]
            [("a.py", ["MySQL"]), ("b.py", ["MySQL"])]
            [("a.py", "b.py")]).graph_edges
        ∧ (⟨"b.py", "DB:" ++ "MySQL", "uses"⟩ : OutEdge) ∈ (analyze_data_flow
            [⟨"a.py", true, ["MySQL"], []⟩, ⟨"b.py", true, ["MySQL"], []⟩]
            [("a.py", ["MySQL"]), ("b.py", ["MySQL"])]
            [("a.py", "b.py")]).graph_edges
        ∧ (⟨"DB:" ++ "MySQL", "b.py", "used_by"⟩ : OutEdge) ∈ (analyze_data_flow
            [⟨"a.py", true, ["MySQL"], []⟩, ⟨"b.py", true, ["MySQL"], []⟩]
            [("a.py", ["MySQL"]), ("b.py", ["MySQL"])]
            [("a.py", "b.py")]).graph_edges) := by
  have hfiles : ∀ fd ∈ ([⟨"a.py", true, ["MySQL"], []⟩, ⟨"b.py", true, ["MySQL"], []⟩] : List FileData),
      ∀ s, fd.path ≠ "DB:" ++ s := by
    intro fd hfd s
    rcases List.mem_cons.mp hfd with rfl | hfd'
    · exact ne_db_tag_of_head (by decide) s
    · rcases List.mem_cons.mp hfd' with rfl | h
      · exact ne_db_tag_of_head (by decide) s
      · exact absurd h (List.not_mem_nil _)
  have hconns : ∀ pc ∈ ([("a.py", ["MySQL"]), ("b.py", ["MySQL"])] : List (String × List String)),
      ∀ s, pc.1 ≠ "DB:" ++ s := by
    intro pc hpc s
    rcases List.mem_cons.mp hpc with rfl | hpc'
    · exact ne_db_tag_of_head (by decide) s
    · rcases List.mem_cons.mp hpc' with rfl | h
      · exact ne_db_tag_of_head (by decide) s
      · exact absurd h (List.not_mem_nil _)
  have himps : ∀ e ∈ ([("a.py", "b.py")] : List (String × String)),
      (∀ s, e.1 ≠ "DB:" ++ s) ∧ (∀ s, e.2 ≠ "DB:" ++ s) := by
    intro e he
    rcases List.mem_cons.mp he with rfl | h
    · exact ⟨fun s => ne_db_tag_of_head (by decide) s, fun s => ne_db_tag_of_head (by decide) s⟩
    · exact absurd h (List.not_mem_nil _)
  refine ⟨⟨by decide, by decide, by decide, hfiles⟩, ?_⟩
  exact db_node_unique_and_bidirectional_edges
    [⟨"a.py", true, ["MySQL"], []⟩, ⟨"b.py", true, ["MySQL"], []⟩]
    [("a.py", ["MySQL"]), ("b.py", ["MySQL"])]
    [("a.py", "b.py")]
    "a.py" "b.py" "MySQL" ["MySQL"] ["MySQL"]
    (by decide) (by decide) (by decide) (by decide)
    hfiles hconns himps

/-- CLAIM C5 (modelled from the spec: the SQL extraction and lineage builder
are not among the source files, so `buildSqlLineage` reconstructs spec section
4.5): for every SQL statement classified as a SELECT and every table it
references, the lineage graph contains the table node, the synthesized
query-result node, and a directed table to query-result edge labeled
`SQL_SELECT`. -/
theorem sql_select_table_to_result_edge
    (stmts : List SqlStatement) (s : SqlStatement) (hs : s ∈ stmts)
    (hsel : s.kind = SqlKind.select) (t : String) (ht : t ∈ s.tables) :
    (buildSqlLineage stmts).hasNode t = true
    ∧ (buildSqlLineage stmts).hasNode ("result_of_" ++ t ++ "_query") = true
    ∧ (t, "result_of_" ++ t ++ "_query", "SQL_SELECT") ∈ (buildSqlLineage stmts).edges := by
  suffices h : (buildSqlLineage stmts).edgeTypeOf t ("result_of_" ++ t ++ "_query")
        = some "SQL_SELECT"
      ∧ (buildSqlLineage stmts).hasNode t = true
      ∧ (buildSqlLineage stmts).hasNode ("result_of_" ++ t ++ "_query") = true by
    exact ⟨h.2.1, h.2.2, mem_edges_of_edgeTypeOf _ _ _ _ h.1⟩
  have hinner_est : ∀ (g : DiGraph),
      (((g.add_node t ⟨some "table", none, none⟩).add_node
          ("result_of_" ++ t ++ "_query") ⟨some "query_result", none, none⟩).add_edge
          t ("result_of_" ++ t ++ "_query") "SQL_SELECT").edgeTypeOf
            t ("result_of_" ++ t ++ "_query") = some "SQL_SELECT"
      ∧ (((g.add_node t ⟨some "table", none, none⟩).add_node
          ("result_of_" ++ t ++ "_query") ⟨some "query_result", none, none⟩).add_edge
          t ("result_of_" ++ t ++ "_query") "SQL_SELECT").hasNode t = true
      ∧ (((g.add_node t ⟨some "table", none, none⟩).add_node
          ("result_of_" ++ t ++ "_query") ⟨some "query_result", none, none⟩).add_edge
          t ("result_of_" ++ t ++ "_query") "SQL_SELECT").hasNode
            ("result_of_" ++ t ++ "_query") = true := by
    intro g
    refine ⟨edgeTypeOf_add_edge_self _ _ _ _, ?_, ?_⟩
    · exact hasNode_mono_add_edge _ _ _ _ _
        (hasNode_mono_add_node _ _ _ _ (hasNode_add_node_self _ _ _))
    · exact hasNode_mono_add_edge _ _ _ _ _ (hasNode_add_node_self _ _ _)
  have hinner_pres : ∀ (g : DiGraph) (u : String),
      (g.edgeTypeOf t ("result_of_" ++ t ++ "_query") = some "SQL_SELECT"
        ∧ g.hasNode t = true ∧ g.hasNode ("result_of_" ++ t ++ "_query") = true) →
      ((((g.add_node u ⟨some "table", none, none⟩).add_node
          ("result_of_" ++ u ++ "_query") ⟨some "query_result", none, none⟩).add_edge
          u ("result_of_" ++ u ++ "_query") "SQL_SELECT").edgeTypeOf
            t ("result_of_" ++ t ++ "_query") = some "SQL_SELECT"
        ∧ (((g.add_node u ⟨some "table", none, none⟩).add_node
          ("result_of_" ++ u ++ "_query") ⟨some "query_result", none, none⟩).add_edge
          u ("result_of_" ++ u ++ "_query") "SQL_SELECT").hasNode t = true
        ∧ (((g.add_node u ⟨some "table", none, none⟩).add_node
          ("result_of_" ++ u ++ "_query") ⟨some "query_result", none, none⟩).add_edge
          u ("result_of_" ++ u ++ "_query") "SQL_SELECT").hasNode
            ("result_of_" ++ t ++ "_query") = true) := by
    intro g u h
    obtain ⟨he, hn1, hn2⟩ := h
    refine ⟨?_, ?_, ?_⟩
    · by_cases hc : t = u ∧ ("result_of_" ++ t ++ "_query") = ("result_of_" ++ u ++ "_query")
      · rw [hc.1]
        exact edgeTypeOf_add_edge_self _ _ _ _
      · rw [edgeTypeOf_add_edge_other _ _ _ _ _ _ hc, edgeTypeOf_add_node, edgeTypeOf_add_node]
        exact he
    · exact hasNode_mono_add_edge _ _ _ _ _
        (hasNode_mono_add_node _ _ _ _ (hasNode_mono_add_node _ _ _ _ hn1))
    · exact hasNode_mono_add_edge _ _ _ _ _
        (hasNode_mono_add_node _ _ _ _ (hasNode_mono_add_node _ _ _ _ hn2))
  rw [buildSqlLineage]
  refine foldl_est_pres
    (fun g => g.edgeTypeOf t ("result_of_" ++ t ++ "_query") = some "SQL_SELECT"
      ∧ g.hasNode t = true ∧ g.hasNode ("result_of_" ++ t ++ "_query") = true)
    _ stmts s hs ?_ ?_ DiGraph.emptyGraph
  · intro g
    obtain ⟨raw, k, tbls⟩ := s
    simp only [SqlStatement.kind] at hsel
    subst hsel
    simp only [SqlStatement.tables] at ht
    refine foldl_est_pres
      (fun g => g.edgeTypeOf t ("result_of_" ++ t ++ "_query") = some "SQL_SELECT"
        ∧ g.hasNode t = true ∧ g.hasNode ("result_of_" ++ t ++ "_query") = true)
      _ tbls t ht ?_ ?_ g
    · intro g'
      exact hinner_est g'
    · intro g' u h
      exact hinner_pres g' u h
  · intro g b h
    obtain ⟨raw', k', tbls'⟩ := b
    cases k' with
    | select =>
      refine foldl_pres
        (fun g => g.edgeTypeOf t ("result_of_" ++ t ++ "_query") = some "SQL_SELECT"
          ∧ g.hasNode t = true ∧ g.hasNode ("result_of_" ++ t ++ "_query") = true)
        _ tbls' ?_ g h
      intro g' u hu
      exact hinner_pres g' u hu
    | insert => exact h
    | update => exact h
    | otherSql => exact h

/-- WITNESS for C5: a single SELECT over table `users` yields the table node,
the `result_of_users_query` node, and the `SQL_SELECT` edge. -/
theorem sql_select_table_to_result_edge_witness :
    ((⟨"SELECT name FROM users", SqlKind.select, ["users"]⟩ : SqlStatement) ∈
        ([⟨"SELECT name FROM users", SqlKind.select, ["users"]⟩] : List SqlStatement)
      ∧ (⟨"SELECT name FROM users", SqlKind.select, ["users"]⟩ : SqlStatement).kind
          = SqlKind.select
      ∧ "users" ∈ (⟨"SELECT name FROM users", SqlKind.select, ["users"]⟩ : SqlStatement).tables)
    ∧ ((buildSqlLineage [⟨"SELECT name FROM users", SqlKind.select, ["users"]⟩]).hasNode "users"
          = true
      ∧ (buildSqlLineage [⟨"SELECT name FROM users", SqlKind.select, ["users"]⟩]).hasNode
          ("result_of_" ++ "users" ++ "_query") = true
      ∧ ("users", "result_of_" ++ "users" ++ "_query", "SQL_SELECT") ∈
          (buildSqlLineage [⟨"SELECT name FROM users", SqlKind.select, ["users"]⟩]).edges) :=
  ⟨⟨by simp, by simp, by simp⟩,
    sql_select_table_to_result_edge
      [⟨"SELECT name FROM users", SqlKind.select, ["users"]⟩]
      ⟨"SELECT name FROM users", SqlKind.select, ["users"]⟩
      (by simp) (by simp) "users" (by simp)⟩

/-- CLAIM C2: for every matcher and every text, each catalog scan lists every
kind at most once, in catalog declaration order (the result is a sublist of
the declared kind sequence), and contains a kind exactly when at least one of
its patterns matches; being a total function into a list, the scan returns an
(possibly empty) result for every input and never fails. -/
theorem scan_catalog_order_membership_unique (m : String → String → Bool) (content : String) :
    ((scan_for_database_connections m content).Nodup
      ∧ (scan_for_database_connections m content).Sublist (DB_PATTERNS.map Prod.fst)
      ∧ ∀ k, k ∈ scan_for_database_connections m content ↔
          ∃ ps, (k, ps) ∈ DB_PATTERNS ∧ ∃ p ∈ ps, m p content = true)
    ∧ ((scan_for_api_patterns m content).Nodup
      ∧ (scan_for_api_patterns m content).Sublist (API_PATTERNS.map Prod.fst)
      ∧ ∀ k, k ∈ scan_for_api_patterns m content ↔
          ∃ ps, (k, ps) ∈ API_PATTERNS ∧ ∃ p ∈ ps, m p content = true) := by
  refine ⟨⟨?_, ?_, ?_⟩, ⟨?_, ?_, ?_⟩⟩
  · exact nodup_scanAux m content DB_PATTERNS [] List.nodup_nil
  · obtain ⟨s, hs, hsub⟩ := scanAux_sublist m content DB_PATTERNS []
    rw [scan_for_database_connections, hs]
    simpa using hsub
  · intro k
    rw [scan_for_database_connections, mem_scanAux]
    simp [List.any_eq_true]
  · exact nodup_scanAux m content API_PATTERNS [] List.nodup_nil
  · obtain ⟨s, hs, hsub⟩ := scanAux_sublist m content API_PATTERNS []
    rw [scan_for_api_patterns, hs]
    simpa using hsub
  · intro k
    rw [scan_for_api_patterns, mem_scanAux]
    simp [List.any_eq_true]

/-- COUNTEREXAMPLE to C1: on the specification boundary declaration the JS/TS
regex branch splits inside the default-value literals and returns the fragment
list `a, b, 2], c` instead of the three parameter names. -/
theorem js_params_split_inside_literals :
    js_function_params specimen_decl = ["a", "b", "2]", "c"]
    ∧ ¬ js_function_params specimen_decl = ["a", "b", "c"] := by
  constructor
  · decide
  · decide

/-- CLAIM C1 (amended): on the boundary declaration `f(a, b=[1,2], c={"x":1})`
only the Java branch recovers exactly the parameter names `a, b, c` (its comma
split also breaks inside the literals, but the name regex drops the non-name
fragments); the JS/TS branch and the Python syntax-error fallback, which split
on every comma without depth tracking, both return the four fragments
`a, b, 2], c`. -/
theorem regex_param_extraction_on_specimen :
    js_function_params specimen_decl = ["a", "b", "2]", "c"]
    ∧ python_fallback_params specimen_decl = ["a", "b", "2]", "c"]
    ∧ java_params (captureParenGroup specimen_decl) = ["a", "b", "c"] := by
  refine ⟨by decide, by decide, by decide⟩

/-- CLAIM C6: for an unparseable Python file the analyzer does not raise:
`detect_issues` returns exactly the single High/Syntax issue, and `analyze`
returns the sentinel metrics with every size, structure and complexity value
zero and debt ratio exactly 100. -/
theorem unparseable_file_sentinel (path : String) (content : List String) :
    detect_issues path none =
      [⟨path, 1, "Failed to parse Python code", IssueSeverity.high, "Syntax",
        "Fix the syntax errors in the file to enable proper analysis."⟩]
    ∧ (detect_issues path none).length = 1
    ∧ (analyze path content none).lines_total = 0
    ∧ (analyze path content none).lines_code = 0
    ∧ (analyze path content none).lines_comment = 0
    ∧ (analyze path content none).lines_blank = 0
    ∧ (analyze path content none).functions = 0
    ∧ (analyze path content none).classes = 0
    ∧ (analyze path content none).imports = 0
    ∧ (analyze path content none).cyclomatic = 0
    ∧ (analyze path content none).cognitive = 0
    ∧ (analyze path content none).if_statements = 0
    ∧ (analyze path content none).loops = 0
    ∧ (analyze path content none).docstring_coverage = 0
    ∧ (analyze path content none).comment_percent = 0
    ∧ (analyze path content none).score = 0
    ∧ (analyze path content none).debt = 100 := by
  refine ⟨rfl, rfl, rfl, rfl, rfl, rfl, rfl, rfl, rfl, rfl, rfl, rfl, rfl, rfl, rfl, rfl, rfl⟩

/-- CLAIM C9: for every input file, parseable or not and whatever combination
of penalty conditions triggers, the returned technical-debt ratio lies between
0 and 100. -/
theorem debt_ratio_bounded (path : String) (content : List String) (tree : Option PyNode) :
    0 ≤ (analyze path content tree).debt ∧ (analyze path content tree).debt ≤ 100 := by
  cases tree with
  | none =>
    constructor <;> norm_num [analyze, create_error_metrics]
  | some t =>
    have hd : (analyze path content (some t)).debt
        = (calculate_maintainability content (some t)).2 := rfl
    rw [hd]
    simp only [calculate_maintainability]
    constructor
    · refine le_min (by norm_num) ?_
      split_ifs <;> positivity
    · exact min_le_left _ _

/-- COUNTEREXAMPLE to C7: on a module with two sibling ifs, the source counter
returns 3 (the second sibling costs 2 because the level never decreases),
while the nesting-aware reference definition of the claim gives 2. -/
theorem cognitive_counter_on_sibling_ifs :
    calculate_cognitive_complexity (some twoSiblingIfs) = 3
    ∧ refCognitive twoSiblingIfs = 2
    ∧ ¬ calculate_cognitive_complexity (some twoSiblingIfs) = refCognitive twoSiblingIfs := by
  have h1 : calculate_cognitive_complexity (some twoSiblingIfs) = 3 := by
    simp [calculate_cognitive_complexity, walk, walkAux, PyNode.children, cogStep,
      twoSiblingIfs, isControl, isIf, isFor, isWhile, isTry, isFuncOrClass,
      isFunctionDef, isClassDef]
  have h2 : refCognitive twoSiblingIfs = 2 := by
    simp [refCognitive, refCogNode, refCogList, twoSiblingIfs]
  refine ⟨h1, h2, ?_⟩
  intro h
  rw [h1, h2] at h
  exact absurd h (by decide)

/-- CLAIM C7 (amended): the cognitive-complexity counter equals the
breadth-first run formula: 1 per function/class node, and for every maximal
run of the breadth-first walk between function/class boundaries, the j-th
control-structure node of the run costs j (so a run of m control nodes costs
m(m+1)/2), independent of lexical nesting; only a function/class node resets
the level. -/
theorem cognitive_complexity_bfs_run_formula (t : PyNode) :
    calculate_cognitive_complexity (some t) = bfsRunCognitive t := by
  show ((walk t).foldl cogStep (0, 0)).1 = _
  rw [cog_fold_closed (walk t) 0, bfsRunCognitive]
  simp

/-- Breadth-first walk of the two-function module, computed once for the C8
counterexample. -/
theorem walk_twoFunModule :
    walk twoFunModule =
      [PyNode.otherNode
        [PyNode.functionDef "f" [] [] 1 40 [] [PyNode.passStmt],
         PyNode.functionDef "g" [] [] 41 42 [] [PyNode.passStmt]],
       PyNode.functionDef "f" [] [] 1 40 [] [PyNode.passStmt],
       PyNode.functionDef "g" [] [] 41 42 [] [PyNode.passStmt],
       PyNode.passStmt, PyNode.passStmt] := by
  simp [walk, walkAux, twoFunModule, PyNode.children]

/-- COUNTEREXAMPLE to C8: on a one-code-line file whose tree has two functions
with exactly one of them long, the source assigns the long-function penalty
20 * 1/2 = 10, so the debt ratio is 50, while the claim formula of 20 points
per triggered condition gives 60. -/
theorem debt_ratio_fractional_penalty :
    (calculate_maintainability oneCodeLine (some twoFunModule)).2 = 50
    ∧ claim_debt oneCodeLine twoFunModule = 60
    ∧ ¬ (calculate_maintainability oneCodeLine (some twoFunModule)).2
        = claim_debt oneCodeLine twoFunModule := by
  have hlines : count_lines oneCodeLine = ⟨1, 1, 0, 0⟩ := by decide
  have hcx : calculate_complexity (some twoFunModule) = ⟨0, 0, 0, 0, 0, 0⟩ := by
    simp only [calculate_complexity]
    rw [walk_twoFunModule]
    decide
  have hdoc : calculate_docstring_coverage (some twoFunModule) = 0 := by
    simp only [calculate_docstring_coverage]
    rw [walk_twoFunModule]
    norm_num [isFuncOrClass, isFunctionDef, isClassDef, bodyHasDocstring,
      List.filter_cons, List.countP_cons, List.countP_nil]
  have hfn : count_functions twoFunModule = 2 := by
    simp only [count_functions]
    rw [walk_twoFunModule]
    decide
  have hcls : count_classes twoFunModule = 0 := by
    simp only [count_classes]
    rw [walk_twoFunModule]
    decide
  have hlong : count_long_functions twoFunModule 30 = 1 := by
    simp only [count_long_functions]
    rw [walk_twoFunModule]
    decide
  have hmain : (calculate_maintainability oneCodeLine (some twoFunModule)).2 = 50 := by
    simp only [calculate_maintainability]
    rw [hlines, hcx, hdoc, hfn, hlong]
    norm_num [max_def]
  have hclaim : claim_debt oneCodeLine twoFunModule = 60 := by
    simp only [claim_debt, firstThreeDebtFlags]
    rw [hlines, hcx, hdoc, hlong]
    norm_num [max_def, List.countP_cons, List.countP_nil]
  refine ⟨hmain, hclaim, ?_⟩
  intro h
  rw [hmain, hclaim] at h
  exact absurd h (by norm_num)

/-- CLAIM C8 (amended): for a parseable file with at least one code line, the
technical-debt ratio is 20 points for each triggered condition among the
first three (low comment ratio, high complexity density, low docstring
coverage) plus, when at least one function is longer than 30 lines, the
fractional penalty 20 * long_functions / max(1, function_count) — equal to 20
only when every function is long — capped at 100. -/
theorem debt_penalties_formula (content : List String) (t : PyNode)
    (hcode : 0 < (count_lines content).code) :
    (calculate_maintainability content (some t)).2 = amended_debt content t := by
  simp only [calculate_maintainability, amended_debt, firstThreeDebtFlags,
    long_function_penalty]
  rw [if_pos hcode]
  congr 1
  by_cases h1 : ((count_lines content).comments : ℚ) / ((count_lines content).code : ℚ) < 0.1 <;>
    by_cases h2 : ((calculate_complexity (some t)).total_complexity : ℚ)
        / ((max 1 (count_lines content).code : Nat) : ℚ) > 0.1 <;>
    by_cases h3 : calculate_docstring_coverage (some t) < 50 <;>
    simp only [h1, h2, h3, if_true, if_false, decide_True, decide_False,
      List.countP_cons, List.countP_nil, if_pos, if_neg] <;>
    push_cast <;>
    ring

/-- WITNESS for C8 (amended): the one-code-line file with the two-function
module satisfies the code-line hypothesis and the penalty formula. -/
theorem debt_penalties_formula_witness :
    0 < (count_lines oneCodeLine).code
    ∧ (calculate_maintainability oneCodeLine (some twoFunModule)).2
        = amended_debt oneCodeLine twoFunModule :=
  ⟨by decide, debt_penalties_formula oneCodeLine twoFunModule (by decide)⟩

/-- The enclosing-class search succeeds exactly when some class anywhere in the
tree has a direct method of the given name. -/
theorem find_parent_class_isSome_iff (t : PyNode) (fname : String) :
    (find_parent_class t fname).isSome = true ↔
      ∃ n, Subnode n t ∧ classHasMethodNamed fname n = true := by
  rw [find_parent_class]
  constructor
  · intro h
    cases hf : (walk t).findSome? (fun n =>
        match n with
        | PyNode.classDef cname _ _ body =>
          if body.any (bodyItemIsFunctionNamed fname) then some cname else none
        | _ => none) with
    | none => rw [hf] at h; simp at h
    | some c =>
      obtain ⟨n, hn, hc⟩ := List.exists_of_findSome?_eq_some hf
      refine ⟨n, (mem_walk t n).mp hn, ?_⟩
      cases n with
      | classDef cname ln extra body =>
        dsimp only at hc
        by_cases hb : body.any (bodyItemIsFunctionNamed fname)
        · simpa [classHasMethodNamed] using hb
        · rw [if_neg hb] at hc
          cases hc
      | functionDef name params defaults ln el extra body => cases hc
      | ifStmt c => cases hc
      | forStmt c => cases hc
      | whileStmt c => cases hc
      | tryStmt c => cases hc
      | exceptHandler ln body => cases hc
      | boolOpExpr c => cases hc
      | importStmt names => cases hc
      | importFrom m names => cases hc
      | passStmt => cases hc
      | strConst => cases hc
      | otherNode c => cases hc
  · rintro ⟨n, hsub, hcm⟩
    cases hf : (walk t).findSome? (fun n =>
        match n with
        | PyNode.classDef cname _ _ body =>
          if body.any (bodyItemIsFunctionNamed fname) then some cname else none
        | _ => none) with
    | some c => simp
    | none =>
      exfalso
      rw [List.findSome?_eq_none_iff] at hf
      have hn := (mem_walk t n).mpr hsub
      have := hf n hn
      cases n with
      | classDef cname ln extra body =>
        dsimp only at this
        simp only [classHasMethodNamed] at hcm
        rw [if_pos hcm] at this
        cases this
      | functionDef name params defaults ln el extra body => simp [classHasMethodNamed] at hcm
      | ifStmt c => simp [classHasMethodNamed] at hcm
      | forStmt c => simp [classHasMethodNamed] at hcm
      | whileStmt c => simp [classHasMethodNamed] at hcm
      | tryStmt c => simp [classHasMethodNamed] at hcm
      | exceptHandler ln body => simp [classHasMethodNamed] at hcm
      | boolOpExpr c => simp [classHasMethodNamed] at hcm
      | importStmt names => simp [classHasMethodNamed] at hcm
      | importFrom m names => simp [classHasMethodNamed] at hcm
      | passStmt => simp [classHasMethodNamed] at hcm
      | strConst => simp [classHasMethodNamed] at hcm
      | otherNode c => simp [classHasMethodNamed] at hcm

/-- A successful enclosing-class search returns a class that is in the tree
and has a direct method of the given name. -/
theorem find_parent_class_some (t : PyNode) (fname cname : String)
    (h : find_parent_class t fname = some cname) :
    ∃ ln extra body, Subnode (PyNode.classDef cname ln extra body) t
      ∧ body.any (bodyItemIsFunctionNamed fname) = true := by
  rw [find_parent_class] at h
  obtain ⟨n, hn, hc⟩ := List.exists_of_findSome?_eq_some h
  cases n with
  | classDef cname' ln extra body =>
    dsimp only at hc
    by_cases hb : body.any (bodyItemIsFunctionNamed fname)
    · rw [if_pos hb] at hc
      injection hc with hc
      subst hc
      exact ⟨ln, extra, body, (mem_walk t _).mp hn, hb⟩
    · rw [if_neg hb] at hc
      cases hc
  | functionDef name params defaults ln el extra body => cases hc
  | ifStmt c => cases hc
  | forStmt c => cases hc
  | whileStmt c => cases hc
  | tryStmt c => cases hc
  | exceptHandler ln body => cases hc
  | boolOpExpr c => cases hc
  | importStmt names => cases hc
  | importFrom m names => cases hc
  | passStmt => cases hc
  | strConst => cases hc
  | otherNode c => cases hc

/-- CLAIM C10: the Python extractor marks a function record as a method
exactly when some class definition anywhere in the file has a direct method of
the same name (attribution is by name equality, not lexical enclosure), and a
reported enclosing class is such a class; `is_method` is precisely the
success flag of that search. -/
theorem method_attribution_by_name
    (t : PyNode) (f : FunctionRec) (hf : f ∈ extract_functions_python t) :
    (f.is_method = true ↔ ∃ n, Subnode n t ∧ classHasMethodNamed f.name n = true)
    ∧ (∀ cname, f.parent_class = some cname →
        ∃ ln extra body, Subnode (PyNode.classDef cname ln extra body) t
          ∧ body.any (bodyItemIsFunctionNamed f.name) = true)
    ∧ f.is_method = (f.parent_class).isSome := by
  rw [extract_functions_python, List.mem_filterMap] at hf
  obtain ⟨n, hn, hFn⟩ := hf
  cases n with
  | functionDef name params defaults ln el extra body =>
    simp only at hFn
    injection hFn with hFn
    subst hFn
    refine ⟨?_, ?_, rfl⟩
    · simpa using find_parent_class_isSome_iff t name
    · intro cname hsome
      simpa using find_parent_class_some t name cname (by simpa using hsome)
  | classDef cname ln extra body => cases hFn
  | ifStmt c => cases hFn
  | forStmt c => cases hFn
  | whileStmt c => cases hFn
  | tryStmt c => cases hFn
  | exceptHandler ln body => cases hFn
  | boolOpExpr c => cases hFn
  | importStmt names => cases hFn
  | importFrom m names => cases hFn
  | passStmt => cases hFn
  | strConst => cases hFn
  | otherNode c => cases hFn

/-- Breadth-first walk of the name-clash module, computed once for the C10
witness. -/
theorem walk_moduleLevelClash :
    walk moduleLevelClash =
      [PyNode.otherNode
        [PyNode.classDef "C" 1 [] [PyNode.functionDef "helper" [] [] 2 3 [] [PyNode.passStmt]],
         PyNode.functionDef "helper" [] [] 5 6 [] [PyNode.passStmt]],
       PyNode.classDef "C" 1 [] [PyNode.functionDef "helper" [] [] 2 3 [] [PyNode.passStmt]],
       PyNode.functionDef "helper" [] [] 5 6 [] [PyNode.passStmt],
       PyNode.functionDef "helper" [] [] 2 3 [] [PyNode.passStmt],
       PyNode.passStmt, PyNode.passStmt] := by
  simp [walk, walkAux, moduleLevelClash, PyNode.children]

/-- The enclosing-class search on the clash module attributes `helper` to `C`. -/
theorem find_parent_class_clash :
    find_parent_class moduleLevelClash "helper" = some "C" := by
  rw [find_parent_class, walk_moduleLevelClash]
  rfl

/-- WITNESS for C10: in the clash module, the module-level function `helper`
(line 5, outside any class) is extracted with `is_method = true` and
attributed to class `C`, because `C` has a method of the same name. -/
theorem method_attribution_by_name_witness :
    ((⟨"helper", true, some "C", false, [], 5⟩ : FunctionRec) ∈
        extract_functions_python moduleLevelClash)
    ∧ (((⟨"helper", true, some "C", false, [], 5⟩ : FunctionRec).is_method = true ↔
          ∃ n, Subnode n moduleLevelClash
            ∧ classHasMethodNamed
                (⟨"helper", true, some "C", false, [], 5⟩ : FunctionRec).name n = true)
        ∧ (∀ cname,
            (⟨"helper", true, some "C", false, [], 5⟩ : FunctionRec).parent_class = some cname →
            ∃ ln extra body, Subnode (PyNode.classDef cname ln extra body) moduleLevelClash
              ∧ body.any (bodyItemIsFunctionNamed
                  (⟨"helper", true, some "C", false, [], 5⟩ : FunctionRec).name) = true)
        ∧ (⟨"helper", true, some "C", false, [], 5⟩ : FunctionRec).is_method
            = ((⟨"helper", true, some "C", false, [], 5⟩ : FunctionRec).parent_class).isSome) := by
  have hmem : (⟨"helper", true, some "C", false, [], 5⟩ : FunctionRec) ∈
      extract_functions_python moduleLevelClash := by
    rw [extract_functions_python, walk_moduleLevelClash]
    simp [find_parent_class_clash, bodyHasDocstring]
  exact ⟨hmem, method_attribution_by_name moduleLevelClash _ hmem⟩

/-- With unique paths, two analyzed files with the same path are the same
record. -/
theorem fileData_unique_by_path (files : List FileData)
    (hnd : (files.map FileData.path).Nodup) (f g : FileData)
    (hf : f ∈ files) (hg : g ∈ files) (he : f.path = g.path) : f = g := by
  induction files with
  | nil => exact absurd hf (List.not_mem_nil _)
  | cons a as ih =>
    have hnd' : (as.map FileData.path).Nodup := (List.nodup_cons.mp (by simpa using hnd)).2
    have hhead : a.path ∉ as.map FileData.path := (List.nodup_cons.mp (by simpa using hnd)).1
    rcases List.mem_cons.mp hf with rfl | hf'
    · rcases List.mem_cons.mp hg with rfl | hg'
      · rfl
      · exact absurd (he ▸ List.mem_map.mpr ⟨g, hg', rfl⟩) hhead
    · rcases List.mem_cons.mp hg with rfl | hg'
      · exact absurd (he ▸ List.mem_map.mpr ⟨f, hf', rfl⟩) hhead
      · exact ih hnd' hf' hg'

/-- No ETL record carries a path absent from the file list. -/
theorem etl_count_zero (files : List FileData) (x : String)
    (h : x ∉ files.map FileData.path) :
    (((files.filter etlQualifies).map
        (fun f => (⟨f.path, f.db_types, f.api_patterns⟩ : EtlCandidate))).filter
        (fun r => r.file = x)).length = 0 := by
  induction files with
  | nil => rfl
  | cons a as ih =>
    have hx : a.path ≠ x := fun he => h (by simp [← he])
    have has : x ∉ as.map FileData.path := fun hc => h (by simp [hc])
    by_cases hq : etlQualifies a
    · simp only [List.filter_cons, hq, if_true, List.map_cons, List.filter_cons]
      rw [if_neg (by simpa using hx)]
      exact ih has
    · simp only [List.filter_cons, hq, if_false]
      exact ih has

/-- With unique paths, the ETL list contains exactly one record for a
qualifying file and none for a non-qualifying one. -/
theorem etl_count_eq (files : List FileData) (fd : FileData) (x : String)
    (hnd : (files.map FileData.path).Nodup) (hfd : fd ∈ files) (hx : fd.path = x) :
    (((files.filter etlQualifies).map
        (fun f => (⟨f.path, f.db_types, f.api_patterns⟩ : EtlCandidate))).filter
        (fun r => r.file = x)).length = if etlQualifies fd then 1 else 0 := by
  subst hx
  induction files with
  | nil => exact absurd hfd (List.not_mem_nil _)
  | cons a as ih =>
    have hnd' : (as.map FileData.path).Nodup := (List.nodup_cons.mp (by simpa using hnd)).2
    have hhead : a.path ∉ as.map FileData.path := (List.nodup_cons.mp (by simpa using hnd)).1
    rcases List.mem_cons.mp hfd with rfl | hfd'
    · by_cases hq : etlQualifies fd
      · simp [hq, etl_count_zero as fd.path hhead]
      · simp [hq, etl_count_zero as fd.path hhead]
    · have hx : a.path ≠ fd.path := by
        intro he
        exact hhead (he ▸ List.mem_map.mpr ⟨fd, hfd', rfl⟩)
      by_cases hq : etlQualifies a
      · simpa [hq, hx] using ih hnd' hfd'
      · simpa [hq, hx] using ih hnd' hfd'

/-- With unique paths, any ETL record carrying the path of `fd` is exactly the
record built from `fd`. -/
theorem etl_record_eq (files : List FileData) (fd : FileData)
    (hnd : (files.map FileData.path).Nodup) (hfd : fd ∈ files) (r : EtlCandidate)
    (hr : r ∈ (files.filter etlQualifies).map
      (fun f => (⟨f.path, f.db_types, f.api_patterns⟩ : EtlCandidate)))
    (hfile : r.file = fd.path) :
    r = ⟨fd.path, fd.db_types, fd.api_patterns⟩ := by
  obtain ⟨f, hfmem, hfr⟩ := List.mem_map.mp hr
  have hfin : f ∈ files := (List.mem_filter.mp hfmem).1
  have hpath : f.path = fd.path := by
    rw [← hfile, ← hfr]
  have := fileData_unique_by_path files hnd f fd hfin hfd hpath
  rw [← hfr, this]

/-- A pipeline file record qualifies as an ETL candidate exactly when some
database pattern matches its content and some pattern of one of the four
data-movement API kinds matches its content. -/
theorem etlQualifies_mkFileData_iff (m : String → String → Bool) (p c : String) :
    etlQualifies (mkFileData m p c) = true ↔
      (∃ kind ps pat, (kind, ps) ∈ DB_PATTERNS ∧ pat ∈ ps ∧ m pat c = true)
      ∧ (∃ kind, kind ∈ (["REST API", "ETL Process", "File System", "Cloud Storage"] : List String)
          ∧ ∃ ps pat, (kind, ps) ∈ API_PATTERNS ∧ pat ∈ ps ∧ m pat c = true) := by
  have hdbmem : ∀ k, k ∈ scan_for_database_connections m c ↔
      ∃ ps, (k, ps) ∈ DB_PATTERNS ∧ (ps.any (fun q => m q c)) = true := by
    intro k
    have h := mem_scanAux m c DB_PATTERNS [] k
    simpa using h
  have hapimem : ∀ k, k ∈ scan_for_api_patterns m c ↔
      ∃ ps, (k, ps) ∈ API_PATTERNS ∧ (ps.any (fun q => m q c)) = true := by
    intro k
    have h := mem_scanAux m c API_PATTERNS [] k
    simpa using h
  rw [etlQualifies]
  simp only [mkFileData, Bool.and_eq_true, List.any_eq_true]
  constructor
  · rintro ⟨hdb, k, hk4, hkmem⟩
    refine ⟨?_, ?_⟩
    · have hne : scan_for_database_connections m c ≠ [] := by
        intro hnil
        rw [hnil] at hdb
        simp at hdb
      obtain ⟨k0, hk0⟩ : ∃ k0, k0 ∈ scan_for_database_connections m c := by
        cases hsc : scan_for_database_connections m c with
        | nil => exact absurd hsc hne
        | cons a l => exact ⟨a, List.mem_cons_self a l⟩
      obtain ⟨ps, hps, hany⟩ := (hdbmem k0).mp hk0
      obtain ⟨pat, hpat, hm⟩ := List.any_eq_true.mp hany
      exact ⟨k0, ps, pat, hps, hpat, hm⟩
    · have hk : k ∈ scan_for_api_patterns m c := by simpa using hkmem
      obtain ⟨ps, hps, hany⟩ := (hapimem k).mp hk
      obtain ⟨pat, hpat, hm⟩ := List.any_eq_true.mp hany
      exact ⟨k, hk4, ps, pat, hps, hpat, hm⟩
  · rintro ⟨⟨kind, ps, pat, hps, hpat, hm⟩, k, hk4, ps', pat', hps', hpat', hm'⟩
    constructor
    · have hmem : kind ∈ scan_for_database_connections m c :=
        (hdbmem kind).mpr ⟨ps, hps, List.any_eq_true.mpr ⟨pat, hpat, hm⟩⟩
      cases hsc : scan_for_database_connections m c with
      | nil =>
        rw [hsc] at hmem
        exact absurd hmem (List.not_mem_nil _)
      | cons a l => simp
    · refine ⟨k, hk4, ?_⟩
      have hmem : k ∈ scan_for_api_patterns m c :=
        (hapimem k).mpr ⟨ps', hps', List.any_eq_true.mpr ⟨pat', hpat', hm'⟩⟩
      simpa using hmem

/-- CLAIM C4: a file appears in the ETL-candidates list, exactly once and with
its database kinds and API kinds, precisely when at least one database pattern
matches its content and at least one pattern of the kinds REST API, ETL
Process, File System or Cloud Storage matches its content; otherwise it does
not appear at all. -/
theorem etl_candidate_rule (m : String → String → Bool) (files : List FileData)
    (conns : List (String × List String)) (imps : List (String × String))
    (p c : String) (fd : FileData)
    (hnd : (files.map FileData.path).Nodup) (hfd : fd ∈ files)
    (hmk : fd = mkFileData m p c) :
    ((((analyze_data_flow files conns imps).etl_candidates.filter
        (fun r => r.file = p)).length = 1)
      ↔ ((∃ kind ps pat, (kind, ps) ∈ DB_PATTERNS ∧ pat ∈ ps ∧ m pat c = true)
          ∧ (∃ kind, kind ∈ (["REST API", "ETL Process", "File System", "Cloud Storage"] : List String)
              ∧ ∃ ps pat, (kind, ps) ∈ API_PATTERNS ∧ pat ∈ ps ∧ m pat c = true)))
    ∧ ((((analyze_data_flow files conns imps).etl_candidates.filter
        (fun r => r.file = p)).length = 0)
      ↔ ¬((∃ kind ps pat, (kind, ps) ∈ DB_PATTERNS ∧ pat ∈ ps ∧ m pat c = true)
          ∧ (∃ kind, kind ∈ (["REST API", "ETL Process", "File System", "Cloud Storage"] : List String)
              ∧ ∃ ps pat, (kind, ps) ∈ API_PATTERNS ∧ pat ∈ ps ∧ m pat c = true)))
    ∧ (∀ r ∈ (analyze_data_flow files conns imps).etl_candidates, r.file = p →
        r = ⟨p, scan_for_database_connections m c, scan_for_api_patterns m c⟩) := by
  subst hmk
  have hets : (analyze_data_flow files conns imps).etl_candidates
      = (files.filter etlQualifies).map
          (fun f => (⟨f.path, f.db_types, f.api_patterns⟩ : EtlCandidate)) := rfl
  have hcount := etl_count_eq files (mkFileData m p c) p hnd hfd rfl
  have hiff := etlQualifies_mkFileData_iff m p c
  refine ⟨?_, ?_, ?_⟩
  · rw [hets, hcount]
    constructor
    · intro h1
      by_cases hq : etlQualifies (mkFileData m p c)
      · exact hiff.mp hq
      · rw [if_neg hq] at h1
        cases h1
    · intro hrhs
      rw [if_pos (hiff.mpr hrhs)]
  · rw [hets, hcount]
    constructor
    · intro h0 hrhs
      rw [if_pos (hiff.mpr hrhs)] at h0
      cases h0
    · intro hrhs
      rw [if_neg (fun hq => hrhs (hiff.mp hq))]
  · intro r hr hfile
    rw [hets] at hr
    exact etl_record_eq files (mkFileData m p c) hnd hfd r hr hfile

/-- WITNESS for C4: a single file whose content matches the `psycopg2` pattern
(PostgreSQL) and the `requests\.` pattern (REST API) under the concrete
witness matcher satisfies the ETL-candidate characterization. -/
theorem etl_candidate_rule_witness :
    ((([mkFileData mWitness "etl.py" "body"] : List FileData).map FileData.path).Nodup
      ∧ mkFileData mWitness "etl.py" "body" ∈ [mkFileData mWitness "etl.py" "body"])
    ∧ ((((analyze_data_flow [mkFileData mWitness "etl.py" "body"] [] []).etl_candidates.filter
          (fun r => r.file = "etl.py")).length = 1
        ↔ ((∃ kind ps pat, (kind, ps) ∈ DB_PATTERNS ∧ pat ∈ ps ∧ mWitness pat "body" = true)
            ∧ (∃ kind, kind ∈ (["REST API", "ETL Process", "File System", "Cloud Storage"] : List String)
                ∧ ∃ ps pat, (kind, ps) ∈ API_PATTERNS ∧ pat ∈ ps ∧ mWitness pat "body" = true)))
      ∧ (((analyze_data_flow [mkFileData mWitness "etl.py" "body"] [] []).etl_candidates.filter
          (fun r => r.file = "etl.py")).length = 0
        ↔ ¬((∃ kind ps pat, (kind, ps) ∈ DB_PATTERNS ∧ pat ∈ ps ∧ mWitness pat "body" = true)
            ∧ (∃ kind, kind ∈ (["REST API", "ETL Process", "File System", "Cloud Storage"] : List String)
                ∧ ∃ ps pat, (kind, ps) ∈ API_PATTERNS ∧ pat ∈ ps ∧ mWitness pat "body" = true)))
      ∧ (∀ r ∈ (analyze_data_flow [mkFileData mWitness "etl.py" "body"] [] []).etl_candidates,
          r.file = "etl.py" →
          r = ⟨"etl.py", scan_for_database_connections mWitness "body",
                scan_for_api_patterns mWitness "body"⟩)) := by
  have hnd : (([mkFileData mWitness "etl.py" "body"] : List FileData).map FileData.path).Nodup := by
    simp
  have hmem : mkFileData mWitness "etl.py" "body" ∈ [mkFileData mWitness "etl.py" "body"] := by
    simp
  exact ⟨⟨hnd, hmem⟩,
    etl_candidate_rule mWitness [mkFileData mWitness "etl.py" "body"] [] [] "etl.py" "body"
      (mkFileData mWitness "etl.py" "body") hnd hmem rfl⟩
